import Mathlib

/-! # k8s-tool: cluster engine, step pipeline and remote node

A shallow embedding of `app/node` and `app/engine`:

* a Go `error` is an `Option String` (`none` is `nil`, `some msg` carries the message);
* the `node.Node` interface is embedded through its only implementation, the `node` struct
  with its embedded `base`;
* the engine's mutable fields are passed explicitly: `AddNode` takes the engine and returns
  the engine afterwards together with its result;
* a pipeline run works on a `Machine`: the world the engine methods act on, and the trace
  of what the run did (notifications and method calls); the engine methods bound to the
  steps are a parameter `Exec` of the run;
* a call that can panic ends in a `Ret`: `nil`, an error, or a panic;
* the methods behind the steps (`connect`, `init`, `join`) work on the hosts through the
  methods of `node.Node`: every call is written to a `CallLog`, and what a call returns is
  given by `Hosts`, a function of the call and of all calls before it;
* a fan-out hands its units to an `errgroup.Group`; where the units share no variable they
  run one after the other in an order that is a parameter of the run, as is the order in
  which `range` walks a map;
* the goroutines of `join` share the variables `mj` and `err`: there every call and every
  read or write of a shared variable is a step of its own, and the scheduler's picks, one
  step each, are a parameter of the run.
-/

set_option autoImplicit false

namespace K8sTool

/-! ## app/node: base.go -/

/-- The `node` struct of `app/node/node.go` with the fields of its embedded `base`
(`app/node/base.go`); the session handle and the output writers are left out. -/
structure Node where
  addr : String
  port : Nat
  isETCD : Bool
  isControl : Bool
  isWorker : Bool
  isNew : Bool
  username : String
  password : String
  hostname : String
  os : String
  arch : String
  home : String
  deriving DecidableEq, Repr

namespace Node

/-- Method `base.GetAddress`. -/
def GetAddress (b : Node) : String := b.addr

/-- Method `base.IsETCD`. -/
def IsETCD (b : Node) : Bool := b.isETCD

/-- Method `base.IsControl`. -/
def IsControl (b : Node) : Bool := b.isControl

/-- Method `base.IsWorker`. -/
def IsWorker (b : Node) : Bool := b.isWorker

/-- Method `base.GetHostname`. -/
def GetHostname (b : Node) : String := b.hostname

/-- Method `base.IsNew`. -/
def IsNew (b : Node) : Bool := b.isNew

/-- Method `base.GetRole`: the declared roles, in the fixed order etcd, controlplane, worker. -/
def GetRole (b : Node) : List String :=
  (if b.isETCD then ["etcd"] else []) ++
  (if b.isControl then ["controlplane"] else []) ++
  (if b.isWorker then ["worker"] else [])

end Node

/-! ## app/engine: engine.go, the engine value -/

/-- The anonymous `ntp` struct of `Engine`. -/
structure NTPConf where
  server : String
  allow : String
  timezone : String
  deriving DecidableEq, Repr

/-- The anonymous `nfs` struct of `Engine`. -/
structure NFSConf where
  server : String
  path : String
  deriving DecidableEq, Repr

/-- The `Engine` struct. `master` is `none` for the nil interface value. `OnNextStep` records
whether the callback is set; a call of the callback is an event of the run. -/
structure Engine where
  namespace_ : String
  CRISocket : String
  vip : String
  ntp : NTPConf
  nfs : NFSConf
  registryHostname : String
  master : Option Node
  nodes : List Node
  OnNextStep : Bool
  deriving DecidableEq, Repr

/-- The loop at the head of `Engine.AddNode`: the first index whose node has address `addr`
makes the method return. -/
def addrInCluster (addr : String) : List Node → Bool
  | [] => false
  | m :: rest => if addr == m.GetAddress then true else addrInCluster addr rest

/-- Method `Engine.AddNode`: the engine afterwards and the returned error. -/
def Engine.AddNode (e : Engine) (n : Node) : Engine × Option String :=
  let addr := n.GetAddress
  if addrInCluster addr e.nodes then
    (e, some (addr ++ ": node already in cluster"))
  else
    let e1 := if e.master.isNone && n.IsControl then { e with master := some n } else e
    ({ e1 with nodes := e1.nodes ++ [n] }, none)

/-- The first loop of `Engine.check`: the NTP server is a cluster node and no allow-list
is configured. -/
def ntpLoop (ntp : NTPConf) : List Node → Option String
  | [] => none
  | n :: rest =>
    let addr := n.GetAddress
    if ntp.server == addr && ntp.allow == "" then some "ntp allow is empty"
    else ntpLoop ntp rest

/-- The counting loop of the `default` branch of `Engine.check`: the counters `t`, `c`, `w`. -/
def countRoles : List Node → Nat × Nat × Nat → Nat × Nat × Nat
  | [], acc => acc
  | n :: rest, (t, c, w) =>
    countRoles rest
      (if n.IsETCD then t + 1 else t,
       if n.IsControl then c + 1 else c,
       if n.IsWorker then w + 1 else w)

/-- Method `Engine.check`. -/
def Engine.check (e : Engine) : Option String :=
  match ntpLoop e.ntp e.nodes with
  | some err => some err
  | none =>
    match e.nodes with
    | [] => some "cluster must have at least one node"
    | [n] =>
      if !n.IsETCD || !n.IsControl || !n.IsWorker then
        some "single node need all roles (etcd controlplane worker)"
      else none
    | _ :: _ :: _ =>
      let (t, c, w) := countRoles e.nodes (0, 0, 0)
      if t == 0 then some "cluster doesn't have etcd node"
      else if c == 0 then some "cluster doesn't have control plane node"
      else if w == 0 then some "cluster doesn't have worker node"
      else none

/-- A run of `AddNode` calls, one per node of the list, each on the engine the previous call
left; the second component lists the nodes whose call returned `nil`, in call order. -/
def addNodes : Engine → List Node → Engine × List Node
  | e, [] => (e, [])
  | e, n :: rest =>
    let r := e.AddNode n
    let s := addNodes r.1 rest
    (s.1, if r.2.isNone then n :: s.2 else s.2)

/-! ## Library functions of the Go standard library the source calls -/

namespace strings

/-- Function `strings.Join(elems, sep)`. -/
def Join : List String → String → String
  | [], _ => ""
  | [a], _ => a
  | a :: b :: rest, sep => a ++ sep ++ Join (b :: rest) sep

/-- The scan of `strings.Split` for a separator of one character: `cur` holds the characters
of the piece being read, in reverse. -/
def splitAux (sep : Char) : List Char → List Char → List String
  | [], cur => [String.mk cur.reverse]
  | c :: cs, cur =>
    if c = sep then String.mk cur.reverse :: splitAux sep cs []
    else splitAux sep cs (c :: cur)

/-- Function `strings.Split(s, sep)` for a separator of one character. -/
def Split (s : String) (sep : Char) : List String := splitAux sep s.data []

/-- The white space of `unicode.IsSpace`. -/
def isSpace (c : Char) : Bool :=
  c.toNat = 9 || c.toNat = 10 || c.toNat = 11 || c.toNat = 12 || c.toNat = 13 ||
  c.toNat = 32 || c.toNat = 133 || c.toNat = 160 || c.toNat = 5760 ||
  (8192 ≤ c.toNat && c.toNat ≤ 8202) || c.toNat = 8232 || c.toNat = 8233 ||
  c.toNat = 8239 || c.toNat = 8287 || c.toNat = 12288

/-- Function `strings.TrimSpace(s)`: the white space at both ends is cut off. -/
def TrimSpace (s : String) : String :=
  String.mk ((s.data.dropWhile isSpace).reverse.dropWhile isSpace).reverse

end strings

namespace strconv

/-- The digit loop of `strconv.Atoi`: the value of a run of decimal digits, `none` on any
other character. -/
def digits : List Char → Nat → Option Nat
  | [], acc => some acc
  | c :: cs, acc =>
    if 48 ≤ c.toNat ∧ c.toNat ≤ 57 then digits cs (acc * 10 + (c.toNat - 48)) else none

/-- Function `strconv.Atoi(s)` on a 64-bit platform: `none` when the call returns an error (empty
input, a sign alone, a character that is no digit, a value outside the range of `int`). -/
def Atoi (s : String) : Option Int :=
  match s.data with
  | [] => none
  | c :: cs =>
    let neg := c = '-'
    let ds := if c = '-' ∨ c = '+' then cs else c :: cs
    match ds with
    | [] => none
    | _ :: _ =>
      match digits ds 0 with
      | none => none
      | some v =>
        let n : Int := if neg then -(v : Int) else (v : Int)
        if -(2 : Int) ^ 63 ≤ n ∧ n < (2 : Int) ^ 63 then some n else none

/-- Function `strconv.Itoa(i)`. -/
def Itoa (i : Int) : String := toString i

end strconv

/-- Arithmetic of Go's 64-bit `int`: the value of `x` after wrap-around. -/
def wrapInt64 (x : Int) : Int := (x + 2 ^ 63) % 2 ^ 64 - 2 ^ 63

/-! ## app/engine: step.go -/

/-- The engine methods the `run` closures of the two pipelines call. -/
inductive Action
  | connect | init | installChrony | installDocker | loadDockerImage | installKubeadm
  | installHelm | installHa | installKeepalived | startK8s | installCalico | installNFS
  | installIstio | installApp | checkNew | installNFSUtils | join
  deriving DecidableEq, Repr

/-- The `Step` struct; `run` is `none` for a nil function, `some a` for the closure
`func(e *Engine) error { return e.a() }`. -/
inductive Step where
  | mk (Num : Int) (Name : String) (Steps : List Step) (run : Option Action)

namespace Step

/-- Field `Num`. -/
def Num : Step → Int
  | mk n _ _ _ => n

/-- Field `Name`. -/
def Name : Step → String
  | mk _ n _ _ => n

/-- Field `Steps`. -/
def Steps : Step → List Step
  | mk _ _ c _ => c

/-- Field `run`. -/
def run : Step → Option Action
  | mk _ _ _ r => r

end Step

/-- How a call ends: it returns `nil`, it returns an error, or the goroutine panics. -/
inductive Ret
  | nil
  | err (msg : String)
  | panic (msg : String)
  deriving DecidableEq, Repr

/-- What a run does that can be observed from outside the engine. -/
inductive Event
  | notify (name : String)
  | print (line : String)
  | run (a : Action)
  deriving DecidableEq, Repr

/-- The state a pipeline run works on besides the engine: everything the engine methods act
on (the node objects behind `e.nodes` and the hosts), and the events so far, oldest first. -/
structure Machine (σ : Type) where
  world : σ
  trace : List Event

/-- What an engine method does when called on the engine `e`: how it ends, and the world
afterwards. No method assigns a field of the `Engine` struct, so the engine itself stays.
The methods are parameters of the pipeline. -/
abbrev Exec (σ : Type) := Action → Engine → σ → Ret × σ

/-- The message of Go's runtime for an index outside a slice: a negative index is printed
alone, any other index with the length of the slice. -/
def indexPanic (i : Int) (len : Nat) : String :=
  if i < 0 then "runtime error: index out of range [" ++ strconv.Itoa i ++ "]"
  else
    "runtime error: index out of range [" ++ strconv.Itoa i ++ "] with length " ++
      strconv.Itoa len

/-- The `strings.Builder` of `Step.install`: the numbers of the enclosing steps, each followed
by a dot, then the number of the step. -/
def stepLabel (n : List Int) (num : Int) : String :=
  String.join (n.map fun v => strconv.Itoa v ++ ".") ++ strconv.Itoa num

/-- The notification of `Step.install`: the callback when it is set, else the line on
standard output. -/
def announce (e : Engine) (n : List Int) (num : Int) (name : String) : Event :=
  if e.OnNextStep then Event.notify name
  else Event.print (stepLabel n num ++ ") " ++ name ++ "\n")

mutual

/-- Method `Step.install(e, n...)`. -/
def Step.install {σ : Type} (act : Exec σ) (e : Engine) :
    Step → List Int → Machine σ → Ret × Machine σ
  | .mk num name steps run, n, m =>
    let m1 : Machine σ := { m with trace := m.trace ++ [announce e n num name] }
    match run with
    | some a =>
      match act a e m1.world with
      | (.nil, w2) =>
        Step.children act e steps (n ++ [num]) steps.length 0
          { world := w2, trace := m1.trace ++ [Event.run a] }
      | (r, w2) => (r, { world := w2, trace := m1.trace ++ [Event.run a] })
    | none => Step.children act e steps (n ++ [num]) steps.length 0 m1

/-- The loop `for i := range s.Steps` of `Step.install`: the first list is what is left
of `s.Steps` from index `i` on, so that `s.Steps[i+1]` is its second element; `len` is
`len(s.Steps)`. -/
def Step.children {σ : Type} (act : Exec σ) (e : Engine) :
    List Step → List Int → Nat → Nat → Machine σ → Ret × Machine σ
  | [], _, _, _, m => (.nil, m)
  | [_], _, len, i, m => (.panic (indexPanic (i + 1 : Nat) len), m)
  | _ :: c :: rest, n, len, i, m =>
    match Step.install act e c n m with
    | (.nil, m1) => Step.children act e (c :: rest) n len (i + 1) m1
    | (r, m1) => (r, m1)

end

/-- The variable `DeploySteps`. -/
def DeploySteps : List Step := [
  .mk 1 "connect" [] (some .connect),
  .mk 2 "init" [] (some .init),
  .mk 3 "install chrony" [] (some .installChrony),
  .mk 4 "install docker" [] (some .installDocker),
  .mk 5 "load docker image" [] (some .loadDockerImage),
  .mk 6 "install kubeadm" [] (some .installKubeadm),
  .mk 7 "install helm" [] (some .installHelm),
  .mk 8 "install haproxy" [] (some .installHa),
  .mk 9 "install keepalived" [] (some .installKeepalived),
  .mk 10 "start k8s" [] (some .startK8s),
  .mk 11 "install calico" [] (some .installCalico),
  .mk 12 "mount storage" [] (some .installNFS),
  .mk 13 "install istio" [] (some .installIstio),
  .mk 14 "install app" [] (some .installApp)]

/-- The variable `UpdateSteps`. -/
def UpdateSteps : List Step := [
  .mk 1 "connect" [] (some .connect),
  .mk 2 "check new" [] (some .checkNew),
  .mk 3 "init" [] (some .init),
  .mk 4 "install chrony" [] (some .installChrony),
  .mk 5 "install docker" [] (some .installDocker),
  .mk 6 "load docker image" [] (some .loadDockerImage),
  .mk 7 "install kubeadm" [] (some .installKubeadm),
  .mk 8 "install nfs" [] (some .installNFSUtils),
  .mk 9 "join node" [] (some .join)]

/-! ## app/engine: engine.go, the pipeline drivers -/

/-- The loop `for _, i := range li` of `Install` and `Update` over the pipeline `p`:
an entry `strconv.Atoi` rejects is passed over, an index outside `p` panics, the first step
that does not return `nil` ends the run. -/
def selectedLoop {σ : Type} (act : Exec σ) (e : Engine) (p : List Step) :
    List String → Machine σ → Ret × Machine σ
  | [], m => (.nil, m)
  | i :: rest, m =>
    match strconv.Atoi i with
    | none => selectedLoop act e p rest m
    | some n =>
      let idx := wrapInt64 (n - 1)
      if idx < 0 then (.panic (indexPanic idx p.length), m)
      else
        match p[idx.toNat]? with
        | none => (.panic (indexPanic idx p.length), m)
        | some s =>
          match s.install act e [] m with
          | (.nil, m1) => selectedLoop act e p rest m1
          | (r, m1) => (r, m1)

/-- The loop `for _, step := range DeploySteps` (resp. `UpdateSteps`) of `Install` and
`Update`. -/
def allLoop {σ : Type} (act : Exec σ) (e : Engine) :
    List Step → Machine σ → Ret × Machine σ
  | [], m => (.nil, m)
  | step :: rest, m =>
    match step.install act e [] m with
    | (.nil, m1) => allLoop act e rest m1
    | (r, m1) => (r, m1)

/-- The common body of `Engine.Install` and `Engine.Update`, which differ in the pipeline
alone. -/
def runPipeline {σ : Type} (act : Exec σ) (e : Engine) (p : List Step) (steps : String)
    (m : Machine σ) : Ret × Machine σ :=
  match e.check with
  | some err => (.err err, m)
  | none =>
    if steps.utf8ByteSize > 0 then
      let li := strings.Split steps ','
      match li with
      | [] => (.panic (indexPanic 0 0), m)
      | first :: _ =>
        let li := if first != "1" then "1" :: li else li
        selectedLoop act e p li m
    else allLoop act e p m

/-- Method `Engine.Install(steps)`. -/
def Engine.Install {σ : Type} (act : Exec σ) (e : Engine) (steps : String)
    (m : Machine σ) : Ret × Machine σ :=
  runPipeline act e DeploySteps steps m

/-- Method `Engine.Update(steps)`. -/
def Engine.Update {σ : Type} (act : Exec σ) (e : Engine) (steps : String)
    (m : Machine σ) : Ret × Machine σ :=
  runPipeline act e UpdateSteps steps m

/-! ## app/node: node.go -/

namespace filepath

/-- The element pass of `filepath.Clean` on a slash-separated path: empty elements and `.`
are dropped, `..` removes the element before it, stays when there is none to remove in a
relative path, and is dropped at the root. `st` holds the elements kept, last first. -/
def cleanElems (rooted : Bool) : List String → List String → List String
  | [], st => st.reverse
  | c :: cs, st =>
    if c = "" ∨ c = "." then cleanElems rooted cs st
    else if c = ".." then
      match st with
      | [] => if rooted then cleanElems rooted cs [] else cleanElems rooted cs [c]
      | top :: below =>
        if top = ".." then cleanElems rooted cs (c :: st) else cleanElems rooted cs below
    else cleanElems rooted cs (c :: st)

/-- Function `filepath.Clean(path)` with the separator `/`. -/
def Clean (path : String) : String :=
  let rooted := path.data.head? = some '/'
  let out := (if rooted then "/" else "") ++
    strings.Join (cleanElems rooted (strings.Split path '/') []) "/"
  if out = "" then "." else out

/-- Function `filepath.Join(elem...)`: the elements from the first non-empty one on, joined with the
separator and cleaned; the empty string when every element is empty. -/
def Join : List String → String
  | [] => ""
  | e :: rest => if e ≠ "" then Clean (strings.Join (e :: rest) "/") else Join rest

end filepath

/-- An entry of the local file system as `os.ReadDir` lists it: a file, or a directory with
the entries `os.ReadDir` returns for it. -/
inductive FsEntry where
  | file (name : String)
  | dir (name : String) (list : List FsEntry)

namespace FsEntry

/-- Method `fi.Name()`. -/
def Name : FsEntry → String
  | file name => name
  | dir name _ => name

/-- Method `fi.IsDir()`. -/
def IsDir : FsEntry → Bool
  | file _ => false
  | dir _ _ => true

end FsEntry

/-- The requests `copyDir` and `copyFile` make of the remote host: `sftp.MkdirAll(dstDir)`
and the transfer of the local file `srcPath` into the remote file `sftp.Create(dstPath)`. -/
inductive SftpOp
  | MkdirAll (dstDir : String)
  | copyFile (srcPath dstPath : String)
  deriving DecidableEq, Repr

mutual

/-- Method `node.copyDir(srcDir, dstDir)`: `d` is the local entry at `srcDir`, `remote` tells which
requests the remote host refuses and with which error, `log` lists the requests made so far.
The result is the returned error and the requests made. `os.ReadDir` fails on an entry that
is no directory. -/
def Node.copyDir (n : Node) (remote : SftpOp → Option String) :
    String → String → FsEntry → List SftpOp → Option String × List SftpOp
  | srcDir, dstDir, d, log =>
    match remote (.MkdirAll dstDir) with
    | some err => (some err, log ++ [.MkdirAll dstDir])
    | none =>
      match d with
      | .file _ =>
        (some ("readdirent " ++ srcDir ++ ": not a directory"), log ++ [.MkdirAll dstDir])
      | .dir _ list => Node.copyDirLoop n remote srcDir list (log ++ [.MkdirAll dstDir])

/-- The loop `for _, fi := range list` of `node.copyDir`. -/
def Node.copyDirLoop (n : Node) (remote : SftpOp → Option String) :
    String → List FsEntry → List SftpOp → Option String × List SftpOp
  | _, [], log => (none, log)
  | srcDir, fi :: rest, log =>
    let name := fi.Name
    let srcPath := filepath.Join [srcDir, name]
    if (name == "x86_64" || name == "aarch64") && name != n.arch then
      Node.copyDirLoop n remote srcDir rest log
    else
      let name := if name == "x86_64" || name == "aarch64" then "" else name
      let dstPath := filepath.Join [srcDir, name]
      match fi with
      | .dir _ _ =>
        match Node.copyDir n remote srcPath dstPath fi log with
        | (some err, log1) => (some err, log1)
        | (none, log1) => Node.copyDirLoop n remote srcDir rest log1
      | .file _ =>
        match remote (.copyFile srcPath dstPath) with
        | some err => (some err, log ++ [.copyFile srcPath dstPath])
        | none => Node.copyDirLoop n remote srcDir rest (log ++ [.copyFile srcPath dstPath])

end

/-- The session side of `n.sshcli` as `node.Run` uses it: the error of `NewSession` (`none`
when the session opens) and, for a command line, the error of `s.Run` and the captured
standard output. -/
structure SSHClient where
  NewSession : Option String
  Run : String → Option String × String

/-- Method `node.Run(cwd, cmds...)`: the command lines handed to the session, and the result
(the error, or the captured standard output). -/
def Node.Run (sshcli : SSHClient) (cwd : String) (cmds : List String) :
    List String × Except String String :=
  let cmd := strings.Join cmds " && "
  let cmd := if cwd != "" then "cd " ++ cwd ++ " && " ++ cmd ++ " && cd ~" else cmd
  match sshcli.NewSession with
  | some err => ([], .error err)
  | none =>
    match sshcli.Run cmd with
    | (some err, _) => ([cmd], .error err)
    | (none, out) => ([cmd], .ok out)

/-! ## The hosts as the engine sees them, and `errgroup` -/

/-- A call of a method of the `node.Node` interface that reaches the host of the node. -/
inductive Call
  | Connect
  | Install (name : String) (a : List String)
  | AddHost (addr name : String)
  | Run (cwd : String) (cmds : List String)
  deriving DecidableEq, Repr

/-- The calls made so far, oldest first, each with the node it was made on. -/
abbrev CallLog := List (Node × Call)

/-- The hosts: what a call on a node returns, given every call made before it. The result is
the error, or the bytes `Run` returns (the empty text for the other methods). -/
abbrev Hosts := CallLog → Node → Call → Except String String

/-- One call of a method on a node: the result, and the log with the call at its end. -/
def Hosts.call (env : Hosts) (log : CallLog) (n : Node) (c : Call) :
    Except String String × CallLog :=
  (env log n c, log ++ [(n, c)])

/-- Method `base.GetPassword`; `b64` is `base64.StdEncoding.EncodeToString`. -/
def Node.GetPassword (b64 : String → String) (b : Node) : String := b64 b.password

namespace errgroup

/-- The `errgroup.Group` of the zero value: the error kept by `errOnce`. -/
structure Group where
  err : Option String
  deriving DecidableEq, Repr

/-- The zero `Group` of `var eg errgroup.Group`. -/
def Group.zero : Group := { err := none }

/-- What the goroutine of `Group.Go(f)` does when `f` has returned `r`: the first error
that is not `nil` is kept, later ones are dropped. -/
def Group.collect (g : Group) (r : Option String) : Group :=
  match r with
  | none => g
  | some err => if g.err.isNone then { err := some err } else g

/-- Method `Group.Wait()`, once every goroutine has returned. -/
def Group.Wait (g : Group) : Option String := g.err

end errgroup

/-- The loop `for i := range e.nodes` of a fan-out with the guard `if !sel(n) continue`:
the nodes `eg.Go` is called for, in the order of the calls. -/
def launched (sel : Node → Bool) : List Node → List Node
  | [] => []
  | n :: rest => if !sel n then launched sel rest else n :: launched sel rest

/-- The outcome of a fan-out: what `eg.Wait()` returns, the units in the order they
returned, each with the error it returned, and the state the units worked on. -/
structure FanOut (τ : Type) where
  err : Option String
  finished : List (Node × Option String)
  state : τ

/-- The units of a fan-out, run one after the other in the order of the list; each hands
its result to the group. -/
def runUnits {τ : Type} (unit : Node → τ → Option String × τ) :
    List Node → errgroup.Group → List (Node × Option String) → τ →
      errgroup.Group × List (Node × Option String) × τ
  | [], g, fin, s => (g, fin, s)
  | n :: rest, g, fin, s =>
    let r := unit n s
    runUnits unit rest (g.collect r.1) (fin ++ [(n, r.1)]) r.2

/-- The fan-out of the engine methods: one unit per node the guard lets through, all
handed to one `errgroup.Group`, then `eg.Wait()`. The goroutines run in an order the
scheduler picks: `sched` turns the list of the launched units into the order they run and
return in. -/
def fanOut {τ : Type} (sel : Node → Bool) (unit : Node → τ → Option String × τ)
    (sched : List Node → List Node) (nodes : List Node) (s : τ) : FanOut τ :=
  let r := runUnits unit (sched (launched sel nodes)) errgroup.Group.zero [] s
  { err := r.1.Wait, finished := r.2.1, state := r.2.2 }

/-! ## app/engine: engine.go, the methods behind the steps -/

/-- The unit of `Engine.connect`: `n.Connect()`. -/
def connectUnit (env : Hosts) (n : Node) (log : CallLog) : Option String × CallLog :=
  match env.call log n .Connect with
  | (.error err, log1) => (some err, log1)
  | (.ok _, log1) => (none, log1)

/-- Method `Engine.connect`. -/
def Engine.connect (env : Hosts) (sched : List Node → List Node) (e : Engine)
    (log : CallLog) : FanOut CallLog :=
  fanOut (fun _ => true) (connectUnit env) sched e.nodes log

/-- The assignment `hosts[addr] = name` on a Go map, kept as the list of its entries. -/
def mapSet : List (String × String) → String → String → List (String × String)
  | [], k, v => [(k, v)]
  | (k1, v1) :: rest, k, v =>
    if k1 = k then (k, v) :: rest else (k1, v1) :: mapSet rest k v

/-- The first loop of `Engine.init`: the map `hosts` from address to hostname. -/
def hostsMap : List Node → List (String × String) → List (String × String)
  | [], m => m
  | n :: rest, m => hostsMap rest (mapSet m n.GetAddress n.GetHostname)

/-- The loop `for addr, name := range hosts` of the unit of `Engine.init` over the entries in
the order the runtime hands them out. -/
def addHostLoop (env : Hosts) (n : Node) :
    List (String × String) → CallLog → Option String × CallLog
  | [], log => (none, log)
  | (addr, name) :: rest, log =>
    match env.call log n (.AddHost addr name) with
    | (.error err, log1) => (some err, log1)
    | (.ok _, log1) => addHostLoop env n rest log1

/-- The unit of `Engine.init` for the node `n`; `order n` is the order in which `range`
hands out the entries of the map to this unit. -/
def initUnit (env : Hosts) (b64 : String → String)
    (order : Node → List (String × String) → List (String × String))
    (hosts : List (String × String)) (n : Node) (log : CallLog) :
    Option String × CallLog :=
  let password := n.GetPassword b64
  let hostname := n.GetHostname
  match env.call log n (.Install "init" [password, hostname]) with
  | (.error err, log1) => (some err, log1)
  | (.ok _, log1) => addHostLoop env n (order n hosts) log1

/-- Method `Engine.init`. -/
def Engine.init (env : Hosts) (b64 : String → String)
    (order : Node → List (String × String) → List (String × String))
    (sched : List Node → List Node) (e : Engine) (log : CallLog) : FanOut CallLog :=
  let hosts := hostsMap e.nodes []
  fanOut Node.IsNew (initUnit env b64 order hosts) sched e.nodes log

/-- The command of `Engine.join` that issues a controlplane join token. -/
def tokenCertCmd : String :=
  "sudo kubeadm token create --print-join-command --certificate-key $(kubeadm certs certificate-key)"

/-- The command of `Engine.join` that issues a worker join token. -/
def tokenCmd : String := "sudo kubeadm token create --print-join-command"

/-- The command of `Engine.join` that uploads the certificates again. -/
def uploadCertsCmd : String := "sudo kubeadm init phase upload-certs --upload-certs"

/-- The bytes `Run` returned: `nil`, read as the empty text, when it returned an error. -/
def outOf : Except String String → String
  | .ok out => out
  | .error _ => ""

/-- The error `Run` returned. -/
def errOf : Except String String → Option String
  | .ok _ => none
  | .error err => some err

/-- The unit of a fan-out whose closure is `return n.Install(name, a...)`. -/
def installUnit (env : Hosts) (name : String) (a : List String) (n : Node)
    (log : CallLog) : Option String × CallLog :=
  match env.call log n (.Install name a) with
  | (.error err, log1) => (some err, log1)
  | (.ok _, log1) => (none, log1)

/-- Method `Engine.installCalico`: the fan-out of `n.Install("calico")` over all nodes; when
`eg.Wait()` returns an error the method returns it, else it runs `kubectl apply` on the
master (a nil `e.master` panics there) and returns what that call returned. The result is
how the method ends, the units in the order they returned, and the log. -/
def Engine.installCalico (env : Hosts) (sched : List Node → List Node) (e : Engine)
    (log : CallLog) : Ret × List (Node × Option String) × CallLog :=
  let r := fanOut (fun _ => true) (installUnit env "calico" []) sched e.nodes log
  match r.err with
  | some err => (.err err, r.finished, r.state)
  | none =>
    match e.master with
    | none =>
      (.panic "runtime error: invalid memory address or nil pointer dereference",
        r.finished, r.state)
    | some master =>
      match env.call r.state master
        (.Run (filepath.Join ["resource", "calico"]) ["kubectl apply -f calico.yaml"]) with
      | (.error err, log1) => (.err err, r.finished, log1)
      | (.ok _, log1) => (.nil, r.finished, log1)

/-- The variables `mj` and `err` of `Engine.join`, declared outside the closure and assigned
and read by every goroutine, and the log of the calls. -/
structure JoinVars where
  mj : String
  err : Option String
  log : CallLog

/-- Where the goroutine of `Engine.join` for one node stands. Every call on a host and
every read or write of `mj` or `err` is a step of its own; a value that was read or
returned and is not yet stored is kept with the position. -/
inductive JoinPc
  | docker
  | istio
  | app
  | role
  | readMj1
  | join1 (mj : String)
  | setErr1 (r : Option String)
  | testErr1
  | upload
  | token
  | setMj (out : String) (r : Option String)
  | setErr2 (r : Option String)
  | testErr2
  | readMj2
  | join2 (mj : String)
  | workerJoin
  | setErr3 (r : Option String)
  | retErr
  | done (r : Option String)
  deriving DecidableEq, Repr

/-- Whether the goroutine has returned. -/
def JoinPc.isDone : JoinPc → Bool
  | .done _ => true
  | _ => false

/-- One step of the goroutine of `Engine.join` for the node `n`:

* `docker`, `istio`, `app`: `if err := n.Install(...); err != nil { return err }`, with
  an `err` of its own;
* `role`: `if n.IsControl()`;
* `readMj1`, `join1`, `setErr1`: `_, err = n.Run("", string(mj))`;
* `testErr1`: `if err != nil`;
* `upload`: `e.master.Run("", "sudo kubeadm init phase upload-certs --upload-certs")`;
* `token`, `setMj`, `setErr2`: `mj, err = e.master.Run("", ...)`;
* `testErr2`: `if err != nil { return err }`;
* `readMj2`, `join2`, `setErr3`: `_, err = n.Run("", strings.Join(...))`;
* `workerJoin`, `setErr3`: the same assignment in the `else` branch, with `nj`;
* `retErr`: `return err`. -/
def joinStep (env : Hosts) (e : Engine) (master : Node) (nj : String) (n : Node) :
    JoinPc → JoinVars → JoinPc × JoinVars
  | .docker, v =>
    match env.call v.log n (.Install "docker/images" []) with
    | (.error err, log1) => (.done (some err), { v with log := log1 })
    | (.ok _, log1) => (.istio, { v with log := log1 })
  | .istio, v =>
    match env.call v.log n (.Install "istio/images" []) with
    | (.error err, log1) => (.done (some err), { v with log := log1 })
    | (.ok _, log1) => (.app, { v with log := log1 })
  | .app, v =>
    match env.call v.log n (.Install "app/images" []) with
    | (.error err, log1) => (.done (some err), { v with log := log1 })
    | (.ok _, log1) => (.role, { v with log := log1 })
  | .role, v => (if n.IsControl then .readMj1 else .workerJoin, v)
  | .readMj1, v => (.join1 v.mj, v)
  | .join1 mj, v =>
    let r := env.call v.log n (.Run "" [mj])
    (.setErr1 (errOf r.1), { v with log := r.2 })
  | .setErr1 r, v => (.testErr1, { v with err := r })
  | .testErr1, v => (if v.err.isSome then .upload else .retErr, v)
  | .upload, v =>
    (.token, { v with log := (env.call v.log master (.Run "" [uploadCertsCmd])).2 })
  | .token, v =>
    let r := env.call v.log master (.Run "" [tokenCertCmd])
    (.setMj (outOf r.1) (errOf r.1), { v with log := r.2 })
  | .setMj out r, v => (.setErr2 r, { v with mj := out })
  | .setErr2 r, v => (.testErr2, { v with err := r })
  | .testErr2, v => (if v.err.isSome then .retErr else .readMj2, v)
  | .readMj2, v => (.join2 v.mj, v)
  | .join2 mj, v =>
    let r := env.call v.log n
      (.Run "" [strings.Join ["sudo", strings.TrimSpace mj, e.CRISocket] " "])
    (.setErr3 (errOf r.1), { v with log := r.2 })
  | .workerJoin, v =>
    let r := env.call v.log n
      (.Run "" [strings.Join ["sudo", strings.TrimSpace nj, e.CRISocket] " "])
    (.setErr3 (errOf r.1), { v with log := r.2 })
  | .setErr3 r, v => (.retErr, { v with err := r })
  | .retErr, v => (.done v.err, v)
  | .done r, v => (.done r, v)

/-- The goroutines of `Engine.join` and what they share: every launched unit with the place
it stands at, the shared variables, the group, and the units that returned, in the order of
their returns. -/
structure JoinPool where
  units : List (Node × JoinPc)
  vars : JoinVars
  group : errgroup.Group
  finished : List (Node × Option String)

/-- The scheduler lets the unit at index `i` make its next step; a unit that returns hands
its result to the group. Nothing happens when there is no such unit or it has returned. -/
def poolStep (env : Hosts) (e : Engine) (master : Node) (nj : String) (i : Nat)
    (p : JoinPool) : JoinPool :=
  match p.units[i]? with
  | none => p
  | some (n, pc) =>
    if pc.isDone then p
    else
      let r := joinStep env e master nj n pc p.vars
      match r.1 with
      | .done x =>
        { units := p.units.set i (n, r.1), vars := r.2, group := p.group.collect x,
          finished := p.finished ++ [(n, x)] }
      | _ => { p with units := p.units.set i (n, r.1), vars := r.2 }

/-- The longest way of a unit of `Engine.join` from its start to its return, in steps. -/
def joinUnitSteps : Nat := 17

/-- The picks that let every unit of `k` units run to its return, one unit after the other. -/
def completion (k : Nat) : List Nat :=
  (List.range k).flatMap fun j => List.replicate joinUnitSteps j

/-- The pool after the scheduler's picks, one step per pick. -/
def runJoinPool (env : Hosts) (e : Engine) (master : Node) (nj : String) :
    List Nat → JoinPool → JoinPool
  | [], p => p
  | i :: rest, p => runJoinPool env e master nj rest (poolStep env e master nj i p)

/-- Method `Engine.join`: a nil `e.master` panics at the first call; the two token commands
on the master, each ending the method when it fails; then one goroutine per new node and
`eg.Wait()`. The goroutines make their steps in the order `sched` picks them (by index in
the order of their launch); when `sched` ends, the units that have not returned run to
their return one after the other. The result is how the method ends, the units in the order
they returned, and the log. -/
def Engine.join (env : Hosts) (sched : List Nat) (e : Engine) (log : CallLog) :
    Ret × List (Node × Option String) × CallLog :=
  match e.master with
  | none => (.panic "runtime error: invalid memory address or nil pointer dereference", [], log)
  | some master =>
    match env.call log master (.Run "" [tokenCertCmd]) with
    | (.error err, log1) => (.err err, [], log1)
    | (.ok mj, log1) =>
      match env.call log1 master (.Run "" [tokenCmd]) with
      | (.error err, log2) => (.err err, [], log2)
      | (.ok nj, log2) =>
        let units := (launched Node.IsNew e.nodes).map fun n => (n, JoinPc.docker)
        let p := runJoinPool env e master nj (sched ++ completion units.length)
          { units := units, vars := { mj := mj, err := none, log := log2 },
            group := errgroup.Group.zero, finished := [] }
        (match p.group.Wait with
         | none => .nil
         | some err => .err err, p.finished, p.vars.log)

/-! ## Fixtures and the vocabulary of the statements -/

/-- The engine of `engine.New()` without options: every field has its zero value. -/
def Engine.New : Engine :=
  { namespace_ := "", CRISocket := "", vip := "", ntp := ⟨"", "", ""⟩, nfs := ⟨"", ""⟩,
    registryHostname := "", master := none, nodes := [], OnNextStep := false }

/-- The node of `node.New()` without options. -/
def Node.New : Node :=
  { addr := "127.0.0.1", port := 22, isETCD := false, isControl := false, isWorker := false,
    isNew := true, username := "root", password := "", hostname := "", os := "", arch := "",
    home := "" }

/-- A node as `main` builds it from the configuration: address, hostname and roles. -/
def Node.ofConfig (addr hostname : String) (etcd control worker : Bool) : Node :=
  { Node.New with addr := addr, hostname := hostname, isETCD := etcd, isControl := control,
                  isWorker := worker }

/-- The engine `main` builds: the NTP option, then one `AddNode` per configured node. -/
def Engine.ofConfig (server allow : String) (ns : List Node) : Engine :=
  (addNodes { Engine.New with ntp := ⟨server, allow, ""⟩ } ns).1

/-- What the action of a step does on the world `w`: a step without action succeeds. -/
def stepResult {σ : Type} (act : Exec σ) (e : Engine) (s : Step) (w : σ) : Ret × σ :=
  match s.run with
  | some a => act a e w
  | none => (.nil, w)

/-- The events of a step that is started at the top level of a pipeline and has no
children: its notification, then its action. -/
def stepEvents (e : Engine) (s : Step) : List Event :=
  announce e [] s.Num s.Name ::
    (match s.run with
     | some a => [Event.run a]
     | none => [])

/-- The world after the actions of the steps of a list have run one after the other. -/
def worldAfter {σ : Type} (act : Exec σ) (e : Engine) : List Step → σ → σ
  | [], w => w
  | s :: rest, w => worldAfter act e rest (stepResult act e s w).2

/-- The step of a pipeline whose `Num` is `k`. -/
def stepByNum (p : List Step) (k : Int) : Option Step :=
  p.find? fun s => s.Num == k

/-- The numbers a step selector asks for, as the specification words it: the entries
between the commas that parse as integers, in the given order, with `1` put in front when
the first entry is not the text `1`. -/
def selection (steps : String) : List Int :=
  let li := strings.Split steps ','
  (if li.head? = some "1" then li else "1" :: li).filterMap strconv.Atoi

/-- An `Exec` for the examples: every method succeeds and counts one call in the world. -/
def countingExec : Exec Nat := fun _ _ w => (.nil, w + 1)

/-- An `Exec` for the examples: `installChrony` returns an error, every other method
succeeds; each call counts one in the world. -/
def chronyFailsExec : Exec Nat := fun a _ w =>
  if a = .installChrony then (.err "chrony: exit status 1", w + 1) else (.nil, w + 1)

/-- The local resource directory of the examples: an entry script and one binary per
architecture, in the order `os.ReadDir` lists them. -/
def kubeadmTree : FsEntry :=
  .dir "kubeadm"
    [.dir "aarch64" [.file "kubeadm"], .file "install.sh", .dir "x86_64" [.file "kubeadm"]]

/-- A remote host that refuses no request. -/
def acceptAll : SftpOp → Option String := fun _ => none

/-- An `SSHClient` for the examples: the session opens and every command line succeeds with
empty output. -/
def okClient : SSHClient := { NewSession := none, Run := fun _ => (none, "") }

/-- An engine for the examples: five nodes, one with etcd and controlplane, four workers. -/
def fiveNodes : Engine :=
  Engine.ofConfig "" ""
    [Node.ofConfig "10.0.0.1" "m1" true true false,
     Node.ofConfig "10.0.0.2" "w1" false false true,
     Node.ofConfig "10.0.0.3" "w2" false false true,
     Node.ofConfig "10.0.0.4" "w3" false false true,
     Node.ofConfig "10.0.0.5" "w4" false false true]

/-- Hosts for the examples: `Connect` fails on the nodes 10.0.0.2, 10.0.0.3 and 10.0.0.4,
every other call succeeds. -/
def fiveHosts : Hosts := fun _ n c =>
  if c = .Connect ∧ (n.addr = "10.0.0.2" ∨ n.addr = "10.0.0.3" ∨ n.addr = "10.0.0.4") then
    .error ("dial " ++ n.addr)
  else .ok ""

/-- The (address, hostname) pairs of the `AddHost` calls of a list of calls, in the order of
the calls. -/
def addHostPairs (calls : List Call) : List (String × String) :=
  calls.filterMap fun c =>
    match c with
    | .AddHost addr name => some (addr, name)
    | _ => none

/-- The (address, hostname) pairs of the nodes of a list. -/
def hostPairs (nodes : List Node) : List (String × String) :=
  nodes.map fun m => (m.GetAddress, m.GetHostname)

/-- The calls made on the node `n`, in the order they were made. -/
def callsOn (n : Node) (calls : CallLog) : List Call :=
  (calls.filter fun c => c.1 = n).map Prod.snd

/-- Hosts that refuse no call. -/
def allOk : Hosts := fun _ _ _ => .ok ""

/-- An engine for the examples: a controlplane node and a worker, both new. -/
def twoNodes : Engine :=
  Engine.ofConfig "" ""
    [Node.ofConfig "10.0.0.1" "m1" true true false,
     Node.ofConfig "10.0.0.2" "w1" false false true]

/-- The three image preloads of the unit of `Engine.join`, as calls on the node `n`. -/
def preloads (n : Node) : CallLog :=
  [(n, .Install "docker/images" []), (n, .Install "istio/images" []),
   (n, .Install "app/images" [])]

/-- The two token commands `Engine.join` runs on the master before the fan-out. -/
def tokenCalls (master : Node) : CallLog :=
  [(master, .Run "" [tokenCertCmd]), (master, .Run "" [tokenCmd])]

/-- The second join command of a controlplane node: the refreshed token command with `sudo`
in front and the CRI socket behind. -/
def retryCall (e : Engine) (mj1 : String) : Call :=
  .Run "" ["sudo " ++ strings.TrimSpace mj1 ++ " " ++ e.CRISocket]

/-- The result of a step as the pipeline driver sees it. -/
def retOf : Option String → Ret
  | none => .nil
  | some err => .err err

/-- The master of the examples: a controlplane node that is in the cluster already. -/
def joinMaster : Node := { Node.ofConfig "10.0.0.1" "m1" true true false with isNew := false }

/-- A new controlplane node for the examples. -/
def joinNode : Node := Node.ofConfig "10.0.0.4" "m2" true true false

/-- A new worker node for the examples. -/
def joinWorker : Node := Node.ofConfig "10.0.0.5" "w5" false false true

/-- An engine for the examples: the master and one new controlplane node. -/
def oneNewNode : Engine := Engine.ofConfig "" "" [joinMaster, joinNode]

/-- An engine for the examples: the master, a new controlplane node and a new worker. -/
def twoNewNodes : Engine := Engine.ofConfig "" "" [joinMaster, joinNode, joinWorker]

/-- Hosts for the examples: the master issues the controlplane token "old" at its first
call and "new" later; the join with the token "old" fails; every other call succeeds. -/
def staleTokenHosts : Hosts := fun log _ c =>
  if c = .Run "" ["kubeadm join old"] then .error "join: exit status 1"
  else if c = .Run "" [tokenCertCmd] then
    (if log = [] then .ok "kubeadm join old" else .ok "kubeadm join new\n")
  else .ok ""

/-- Hosts for the examples: the master issues the controlplane token "old" at its first
call and fails to issue one later; the join with the token "old" fails; every other call
succeeds. -/
def noTokenHosts : Hosts := fun log _ c =>
  if c = .Run "" ["kubeadm join old"] then .error "join: exit status 1"
  else if c = .Run "" [tokenCertCmd] then
    (if log = [] then .ok "kubeadm join old" else .error "token: exit status 1")
  else .ok ""

/-- Hosts for the examples: every install succeeds, `kubectl apply` on the master fails. -/
def applyFailsHosts : Hosts := fun _ _ c =>
  if c = .Run "resource/calico" ["kubectl apply -f calico.yaml"] then
    .error "kubectl: exit status 1"
  else .ok ""

/-- Steps run one after the other as children of a step with the numbers `n`, up to the
first that does not return `nil`. -/
def runInOrder {σ : Type} (act : Exec σ) (e : Engine) (n : List Int) :
    List Step → Machine σ → Ret × Machine σ
  | [], m => (.nil, m)
  | c :: rest, m =>
    match c.install act e n m with
    | (.nil, m1) => runInOrder act e n rest m1
    | (r, m1) => (r, m1)

/-- The machine after the notification and the action of a step with number `num`, name
`name` and action `run`, started under the numbers `n`. -/
def afterOwn {σ : Type} (act : Exec σ) (e : Engine) (num : Int) (name : String)
    (run : Option Action) (n : List Int) (m : Machine σ) : Machine σ :=
  { world := (stepResult act e (.mk num name [] run) m.world).2,
    trace := m.trace ++ announce e n num name ::
      (match run with
       | some a => [Event.run a]
       | none => []) }

/-- A step for the examples: number 1, two children without children of their own. -/
def nestedStep : Step :=
  .mk 1 "outer" [.mk 1 "first" [] (some .connect), .mk 2 "second" [] (some .init)]
    (some .checkNew)

/-- The numbers of a selection the run gets to: each number up to and with the first one
that names no step of the pipeline or whose step does not return `nil`. -/
def reached {σ : Type} (act : Exec σ) (e : Engine) (p : List Step) :
    List Int → σ → List Int
  | [], _ => []
  | k :: ks, w =>
    k :: (match stepByNum p k with
      | some s =>
        if (stepResult act e s w).1 = .nil then reached act e p ks (stepResult act e s w).2
        else []
      | none => [])

/-- An upper bound for the number of steps a unit of `Engine.join` still makes. -/
def JoinPc.rank : JoinPc → Nat
  | .docker => 17
  | .istio => 16
  | .app => 15
  | .role => 14
  | .readMj1 => 13
  | .join1 _ => 12
  | .setErr1 _ => 11
  | .testErr1 => 10
  | .upload => 9
  | .token => 8
  | .setMj _ _ => 7
  | .setErr2 _ => 6
  | .testErr2 => 5
  | .readMj2 => 4
  | .join2 _ => 3
  | .workerJoin => 3
  | .setErr3 _ => 2
  | .retErr => 1
  | .done _ => 0

/-- What it takes for the number `k` to select a step of the pipeline `p`: the index
`k - 1` lies inside `p`, the step there is the one whose `Num` is `k`, and it has no
children. -/
def Selects (p : List Step) (k : Int) (s : Step) : Prop :=
  0 ≤ wrapInt64 (k - 1) ∧ p[(wrapInt64 (k - 1)).toNat]? = some s ∧
    stepByNum p k = some s ∧ s.Steps = [] ∧ s.Num = k

/-! ## The topology check and the node set -/

theorem addrInCluster_iff (addr : String) (l : List Node) :
    addrInCluster addr l = true ↔ ∃ m ∈ l, m.GetAddress = addr := by
  induction l with
  | nil => simp [addrInCluster]
  | cons m rest ih =>
    unfold addrInCluster
    by_cases h : addr = m.GetAddress
    · simp [h]
    · have h2 : ¬ m.GetAddress = addr := fun h3 => h h3.symm
      simp [h, h2, ih]

theorem ntpLoop_eq_none_iff (ntp : NTPConf) (l : List Node) :
    ntpLoop ntp l = none ↔ ∀ n ∈ l, ¬ (ntp.server = n.GetAddress ∧ ntp.allow = "") := by
  induction l with
  | nil => simp [ntpLoop]
  | cons m rest ih =>
    unfold ntpLoop
    by_cases h : ntp.server = m.GetAddress ∧ ntp.allow = ""
    · simp [h.1, h.2]
    · have : (ntp.server == m.GetAddress && ntp.allow == "") = false := by
        simpa using h
      simp only [this]
      simp [ih]
      intro _
      simpa using h

theorem ntpLoop_eq_some (ntp : NTPConf) (l : List Node) (err : String)
    (h : ntpLoop ntp l = some err) : err = "ntp allow is empty" := by
  induction l with
  | nil => simp [ntpLoop] at h
  | cons m rest ih =>
    unfold ntpLoop at h
    simp only at h
    split at h
    · simpa using h.symm
    · exact ih h

theorem countRoles_spec (l : List Node) (t c w : Nat) :
    countRoles l (t, c, w) =
      (t + (l.filter Node.IsETCD).length, c + (l.filter Node.IsControl).length,
        w + (l.filter Node.IsWorker).length) := by
  induction l generalizing t c w with
  | nil => simp [countRoles]
  | cons m rest ih =>
    unfold countRoles
    rw [ih]
    cases h1 : m.IsETCD <;> cases h2 : m.IsControl <;> cases h3 : m.IsWorker <;>
      simp [List.filter_cons, h1, h2, h3] <;> omega

theorem filter_length_eq_zero_iff (p : Node → Bool) (l : List Node) :
    (l.filter p).length = 0 ↔ ∀ n ∈ l, p n = false := by
  simp [List.filter_eq_nil_iff]

/-- C1 (as stated) fails: a single node with all three roles whose address is the NTP server,
with no allow-list, does not pass `check`. -/
theorem C1_counterexample :
    (Engine.ofConfig "10.0.0.1" "" [Node.ofConfig "10.0.0.1" "m1" true true true]).nodes
        = [Node.ofConfig "10.0.0.1" "m1" true true true] ∧
    ¬ ((Engine.ofConfig "10.0.0.1" "" [Node.ofConfig "10.0.0.1" "m1" true true true]).check
        = none ↔
      ((Node.ofConfig "10.0.0.1" "m1" true true true).IsETCD = true ∧
       (Node.ofConfig "10.0.0.1" "m1" true true true).IsControl = true ∧
       (Node.ofConfig "10.0.0.1" "m1" true true true).IsWorker = true)) := by
  decide

/-- C1 (amended): for an engine with exactly one node on which the NTP guard does not fire
(the NTP server is not the node's address, or an allow-list is configured), `check` returns
no error iff the node holds the roles etcd, controlplane and worker; the error otherwise is
the single-node one. -/
theorem C1_single_node_check (e : Engine) (n : Node) (hn : e.nodes = [n])
    (hntp : ¬ (e.ntp.server = n.GetAddress ∧ e.ntp.allow = "")) :
    (e.check = none ↔ (n.IsETCD = true ∧ n.IsControl = true ∧ n.IsWorker = true)) ∧
    (e.check ≠ none →
      e.check = some "single node need all roles (etcd controlplane worker)") := by
  have h0 : ntpLoop e.ntp e.nodes = none := by
    rw [ntpLoop_eq_none_iff]
    intro m hm
    rw [hn] at hm
    simp at hm
    subst hm
    exact hntp
  unfold Engine.check
  rw [h0, hn]
  cases h1 : n.IsETCD <;> cases h2 : n.IsControl <;> cases h3 : n.IsWorker <;>
    simp [h1, h2, h3]

/-- C1 (amended), at a concrete engine: one node with all three roles, no NTP server. -/
theorem C1_single_node_check_witness :
    (Engine.ofConfig "" "" [Node.ofConfig "10.0.0.1" "m1" true true true]).check = none := by
  have h := C1_single_node_check
    (Engine.ofConfig "" "" [Node.ofConfig "10.0.0.1" "m1" true true true])
    (Node.ofConfig "10.0.0.1" "m1" true true true) (by decide) (by decide)
  exact h.1.mpr (by decide)

/-- C2 (as stated) fails: two nodes that hold every role between them do not pass `check`
when one of them is the NTP server and no allow-list is configured, and the error names
no role. -/
theorem C2_counterexample :
    2 ≤ (Engine.ofConfig "10.0.0.1" ""
          [Node.ofConfig "10.0.0.1" "m1" true true false,
           Node.ofConfig "10.0.0.2" "w1" false false true]).nodes.length ∧
    (∃ n ∈ (Engine.ofConfig "10.0.0.1" ""
          [Node.ofConfig "10.0.0.1" "m1" true true false,
           Node.ofConfig "10.0.0.2" "w1" false false true]).nodes, n.IsETCD = true) ∧
    (∃ n ∈ (Engine.ofConfig "10.0.0.1" ""
          [Node.ofConfig "10.0.0.1" "m1" true true false,
           Node.ofConfig "10.0.0.2" "w1" false false true]).nodes, n.IsControl = true) ∧
    (∃ n ∈ (Engine.ofConfig "10.0.0.1" ""
          [Node.ofConfig "10.0.0.1" "m1" true true false,
           Node.ofConfig "10.0.0.2" "w1" false false true]).nodes, n.IsWorker = true) ∧
    (Engine.ofConfig "10.0.0.1" ""
          [Node.ofConfig "10.0.0.1" "m1" true true false,
           Node.ofConfig "10.0.0.2" "w1" false false true]).check
      = some "ntp allow is empty" := by
  decide

/-- C2 (amended): for an engine with two or more nodes on which the NTP guard does not fire
(no node has the NTP server's address while the allow-list is empty), `check` returns no
error iff each of etcd, controlplane and worker is held by at least one node; when it fails,
the error is the one of the first role, in that order, that no node holds. -/
theorem C2_multi_node_check (e : Engine) (hlen : 2 ≤ e.nodes.length)
    (hntp : ∀ n ∈ e.nodes, ¬ (e.ntp.server = n.GetAddress ∧ e.ntp.allow = "")) :
    (e.check = none ↔
      ((∃ n ∈ e.nodes, n.IsETCD = true) ∧ (∃ n ∈ e.nodes, n.IsControl = true) ∧
        (∃ n ∈ e.nodes, n.IsWorker = true))) ∧
    (∀ err, e.check = some err →
      (err = "cluster doesn't have etcd node" ∧ ∀ n ∈ e.nodes, n.IsETCD = false) ∨
      (err = "cluster doesn't have control plane node" ∧ (∃ n ∈ e.nodes, n.IsETCD = true) ∧
        ∀ n ∈ e.nodes, n.IsControl = false) ∨
      (err = "cluster doesn't have worker node" ∧ (∃ n ∈ e.nodes, n.IsETCD = true) ∧
        (∃ n ∈ e.nodes, n.IsControl = true) ∧ ∀ n ∈ e.nodes, n.IsWorker = false)) := by
  have h0 : ntpLoop e.ntp e.nodes = none := (ntpLoop_eq_none_iff _ _).mpr hntp
  have hex : ∀ p : Node → Bool, (∃ n ∈ e.nodes, p n = true) ↔
      ¬ ((e.nodes.filter p).length = 0) := by
    intro p
    rw [filter_length_eq_zero_iff]
    constructor
    · rintro ⟨n, hn, hp⟩ hall
      rw [hall n hn] at hp
      exact Bool.noConfusion hp
    · intro hne
      by_contra hcon
      apply hne
      intro n hn
      cases hp : p n
      · rfl
      · exact absurd ⟨n, hn, hp⟩ hcon
  have hall : ∀ p : Node → Bool, (∀ n ∈ e.nodes, p n = false) ↔
      (e.nodes.filter p).length = 0 := fun p => (filter_length_eq_zero_iff p e.nodes).symm
  rw [hex, hex, hex, hall, hall, hall]
  unfold Engine.check
  rw [h0]
  match hl : e.nodes with
  | [] => rw [hl] at hlen; simp at hlen
  | [_] => rw [hl] at hlen; simp at hlen
  | a :: b :: rest =>
    simp only [countRoles_spec, Nat.zero_add]
    by_cases ht : ((a :: b :: rest).filter Node.IsETCD).length = 0
    · simp [ht]
    · by_cases hc : ((a :: b :: rest).filter Node.IsControl).length = 0
      · simp [ht, hc]
      · by_cases hw : ((a :: b :: rest).filter Node.IsWorker).length = 0
        · simp [ht, hc, hw]
        · simp [ht, hc, hw]

/-- C2 (amended), at the scenario of the specification: one node with etcd and
controlplane, two workers. -/
theorem C2_multi_node_check_witness :
    (Engine.ofConfig "" ""
      [Node.ofConfig "10.0.0.1" "m1" true true false,
       Node.ofConfig "10.0.0.2" "w1" false false true,
       Node.ofConfig "10.0.0.3" "w2" false false true]).check = none :=
  (C2_multi_node_check
    (Engine.ofConfig "" ""
      [Node.ofConfig "10.0.0.1" "m1" true true false,
       Node.ofConfig "10.0.0.2" "w1" false false true,
       Node.ofConfig "10.0.0.3" "w2" false false true])
    (by decide) (by decide)).1.mpr (by decide)

/-- C8: when some node of the cluster has the address of the configured NTP server and the
NTP allow-list is empty, `check` fails with "ntp allow is empty", whatever the roles. -/
theorem C8_ntp_allow_required (e : Engine)
    (hsrv : ∃ n ∈ e.nodes, n.GetAddress = e.ntp.server) (hallow : e.ntp.allow = "") :
    e.check = some "ntp allow is empty" := by
  cases h : ntpLoop e.ntp e.nodes with
  | none =>
    rw [ntpLoop_eq_none_iff] at h
    obtain ⟨n, hn, ha⟩ := hsrv
    exact absurd ⟨ha.symm, hallow⟩ (h n hn)
  | some err =>
    have := ntpLoop_eq_some _ _ _ h
    subst this
    unfold Engine.check
    rw [h]

/-- C8, at a concrete engine: a complete single node that is also the NTP server. -/
theorem C8_ntp_allow_required_witness :
    (Engine.ofConfig "10.0.0.9" "" [Node.ofConfig "10.0.0.9" "m1" true true true]).check
      = some "ntp allow is empty" :=
  C8_ntp_allow_required
    (Engine.ofConfig "10.0.0.9" "" [Node.ofConfig "10.0.0.9" "m1" true true true])
    (by decide) (by decide)

theorem AddNode_dup (e : Engine) (n : Node) (h : addrInCluster n.GetAddress e.nodes = true) :
    e.AddNode n = (e, some (n.GetAddress ++ ": node already in cluster")) := by
  simp [Engine.AddNode, h]

theorem AddNode_fresh (e : Engine) (n : Node)
    (h : addrInCluster n.GetAddress e.nodes = false) :
    e.AddNode n =
      ({ e with master := if e.master.isNone && n.IsControl then some n else e.master,
                nodes := e.nodes ++ [n] }, none) := by
  unfold Engine.AddNode
  simp only [h]
  cases hm : e.master.isNone && n.IsControl <;> simp

/-- The master of an engine whose master is set stays through one more `AddNode`. -/
theorem AddNode_master_of_isSome (e : Engine) (n : Node) (h : e.master.isSome = true) :
    (e.AddNode n).1.master = e.master := by
  cases hd : addrInCluster n.GetAddress e.nodes
  · rw [AddNode_fresh e n hd]
    have : e.master.isNone = false := by
      cases hm : e.master <;> simp_all
    simp [this]
  · rw [AddNode_dup e n hd]

theorem addNodes_master_of_isSome (ns : List Node) (e : Engine)
    (h : e.master.isSome = true) : (addNodes e ns).1.master = e.master := by
  induction ns generalizing e with
  | nil => rfl
  | cons n rest ih =>
    simp only [addNodes]
    have h1 := AddNode_master_of_isSome e n h
    rw [ih (e.AddNode n).1 (by rw [h1]; exact h), h1]

/-- The invariant of the node set and the master along a run of `AddNode` calls. -/
theorem addNodes_spec (ns : List Node) (e : Engine)
    (hinv : e.master = e.nodes.find? Node.IsControl) :
    (addNodes e ns).1.nodes = e.nodes ++ (addNodes e ns).2 ∧
    (addNodes e ns).1.master = (e.nodes ++ (addNodes e ns).2).find? Node.IsControl := by
  induction ns generalizing e with
  | nil => simp [addNodes, hinv]
  | cons n rest ih =>
    simp only [addNodes]
    cases hd : addrInCluster n.GetAddress e.nodes
    · rw [AddNode_fresh e n hd]
      have hinv2 : (if e.master.isNone && n.IsControl then some n else e.master) =
          (e.nodes ++ [n]).find? Node.IsControl := by
        rw [List.find?_append, ← hinv]
        cases hm : e.master with
        | none => cases hc : n.IsControl <;> simp [hc]
        | some m => simp
      have := ih { e with master := if e.master.isNone && n.IsControl then some n else e.master,
                          nodes := e.nodes ++ [n] } hinv2
      simpa using this
    · rw [AddNode_dup e n hd]
      simpa using ih e hinv

theorem addNodes_append (a b : List Node) (e : Engine) :
    (addNodes e (a ++ b)).1 = (addNodes (addNodes e a).1 b).1 := by
  induction a generalizing e with
  | nil => rfl
  | cons n rest ih => simp only [List.cons_append, addNodes]; exact ih _

theorem addNodes_log_mem (ns : List Node) (e : Engine) :
    ∀ x ∈ (addNodes e ns).2, x ∈ ns := by
  induction ns generalizing e with
  | nil => simp [addNodes]
  | cons n rest ih =>
    intro x hx
    simp only [addNodes] at hx
    split at hx
    · rcases List.mem_cons.mp hx with h | h
      · simp [h]
      · exact List.mem_cons_of_mem _ (ih _ x h)
    · exact List.mem_cons_of_mem _ (ih _ x hx)

/-- C3: `AddNode` of a node whose address is the address of a node already in the node set
returns the duplicate-node error and leaves the engine, its node set (members and order) and
its master as they were. -/
theorem C3_AddNode_duplicate (e : Engine) (n : Node)
    (hdup : ∃ m ∈ e.nodes, m.GetAddress = n.GetAddress) :
    (e.AddNode n).2 = some (n.GetAddress ++ ": node already in cluster") ∧
    (e.AddNode n).1.nodes = e.nodes ∧ (e.AddNode n).1.master = e.master ∧
    (e.AddNode n).1 = e := by
  rw [AddNode_dup e n ((addrInCluster_iff _ _).mpr hdup)]
  simp

/-- C3, at a concrete engine: a second node with the address of the first is refused. -/
theorem C3_AddNode_duplicate_witness :
    ((Engine.ofConfig "" "" [Node.ofConfig "10.0.0.1" "m1" true true true]).AddNode
        (Node.ofConfig "10.0.0.1" "w1" false false true)).2
      = some "10.0.0.1: node already in cluster" ∧
    ((Engine.ofConfig "" "" [Node.ofConfig "10.0.0.1" "m1" true true true]).AddNode
        (Node.ofConfig "10.0.0.1" "w1" false false true)).1.nodes
      = [Node.ofConfig "10.0.0.1" "m1" true true true] :=
  have h := C3_AddNode_duplicate
    (Engine.ofConfig "" "" [Node.ofConfig "10.0.0.1" "m1" true true true])
    (Node.ofConfig "10.0.0.1" "w1" false false true) (by decide)
  ⟨h.1, h.2.1⟩

/-- C4: after any run of `AddNode` calls on a fresh engine, the node set is the list of the
nodes added with success, in call order, and the master is the first of them that declares
the controlplane role (unset when there is none); a master that is set stays through any
further `AddNode` calls; and nodes without the controlplane role added before the first
controlplane node do not keep that node from becoming the master. -/
theorem C4_master_election (e0 : Engine) (hm : e0.master = none) (hn : e0.nodes = [])
    (ns : List Node) :
    (addNodes e0 ns).1.nodes = (addNodes e0 ns).2 ∧
    (addNodes e0 ns).1.master = (addNodes e0 ns).2.find? Node.IsControl ∧
    (∀ more : List Node, (addNodes e0 ns).1.master.isSome = true →
      (addNodes (addNodes e0 ns).1 more).1.master = (addNodes e0 ns).1.master) ∧
    (∀ (pre rest : List Node) (n : Node), ns = pre ++ n :: rest →
      (∀ x ∈ pre, x.IsControl = false) → n.IsControl = true →
      (∀ x ∈ pre, x.GetAddress ≠ n.GetAddress) →
      (addNodes e0 ns).1.master = some n) := by
  have hinv : e0.master = e0.nodes.find? Node.IsControl := by rw [hm, hn]; rfl
  have hspec := addNodes_spec ns e0 hinv
  rw [hn] at hspec
  refine ⟨by simpa using hspec.1, by simpa using hspec.2, ?_, ?_⟩
  · intro more hsome
    exact addNodes_master_of_isSome more _ hsome
  · intro pre rest n hns hpre hctl haddr
    subst hns
    have hpres := addNodes_spec pre e0 hinv
    rw [hn] at hpres
    simp only [List.nil_append] at hpres
    have hsub := addNodes_log_mem pre e0
    have hfresh : addrInCluster n.GetAddress (addNodes e0 pre).1.nodes = false := by
      cases hc : addrInCluster n.GetAddress (addNodes e0 pre).1.nodes
      · rfl
      · obtain ⟨m, hmem, hma⟩ := (addrInCluster_iff _ _).mp hc
        rw [hpres.1] at hmem
        exact absurd hma (haddr m (hsub m hmem))
    have hnone : (addNodes e0 pre).1.master = none := by
      rw [hpres.2, List.find?_eq_none]
      intro x hx
      simp [hpre x (hsub x hx)]
    rw [addNodes_append]
    simp only [addNodes]
    have hset : ((addNodes e0 pre).1.AddNode n).1.master = some n := by
      rw [AddNode_fresh _ n hfresh]
      simp [hnone, hctl]
    rw [addNodes_master_of_isSome rest _ (by rw [hset]; rfl), hset]

/-- C4, at a concrete run: a worker, then two controlplane nodes; the first controlplane
node is the master. -/
theorem C4_master_election_witness :
    (addNodes Engine.New
      [Node.ofConfig "10.0.0.1" "w1" false false true,
       Node.ofConfig "10.0.0.2" "m1" true true false,
       Node.ofConfig "10.0.0.3" "m2" true true false]).1.master
      = some (Node.ofConfig "10.0.0.2" "m1" true true false) :=
  (C4_master_election Engine.New rfl rfl
      [Node.ofConfig "10.0.0.1" "w1" false false true,
       Node.ofConfig "10.0.0.2" "m1" true true false,
       Node.ofConfig "10.0.0.3" "m2" true true false]).2.2.2
    [Node.ofConfig "10.0.0.1" "w1" false false true]
    [Node.ofConfig "10.0.0.3" "m2" true true false]
    (Node.ofConfig "10.0.0.2" "m1" true true false) rfl (by decide) rfl (by decide)

/-! ## The pipeline drivers -/

theorem utf8ByteSize_go_pos (c : Char) (cs : List Char) :
    0 < String.utf8ByteSize.go (c :: cs) := by
  have := Char.utf8Size_pos c
  simp only [String.utf8ByteSize.go]
  omega

theorem utf8ByteSize_pos_iff (s : String) : 0 < s.utf8ByteSize ↔ s ≠ "" := by
  cases s with
  | mk data =>
    cases data with
    | nil => simp [String.utf8ByteSize, String.utf8ByteSize.go]
    | cons c cs =>
      simp only [String.utf8ByteSize]
      constructor
      · intro _ h
        have h2 := congrArg String.data h
        simp at h2
      · intro _
        exact utf8ByteSize_go_pos c cs

theorem splitAux_ne_nil (sep : Char) (cs cur : List Char) :
    strings.splitAux sep cs cur ≠ [] := by
  induction cs generalizing cur with
  | nil => simp [strings.splitAux]
  | cons c cs ih =>
    unfold strings.splitAux
    split
    · simp
    · exact ih _

/-- A step without children announces itself, runs its action and returns its result. -/
theorem install_childless {σ : Type} (act : Exec σ) (e : Engine) (s : Step)
    (hs : s.Steps = []) (m : Machine σ) :
    s.install act e [] m =
      ((stepResult act e s m.world).1,
        { world := (stepResult act e s m.world).2, trace := m.trace ++ stepEvents e s }) := by
  cases s with
  | mk num name steps run =>
    simp only [Step.Steps] at hs
    subst hs
    cases run with
    | none =>
      simp [Step.install, Step.children, stepResult, stepEvents, Step.run, Step.Num, Step.Name]
    | some a =>
      simp only [Step.install, stepResult, stepEvents, Step.run, Step.Num, Step.Name]
      rcases hact : act a e m.world with ⟨r, w2⟩
      cases r <;> simp [Step.children, List.append_assoc]

theorem allLoop_cons_nil {σ : Type} (act : Exec σ) (e : Engine) (s : Step) (rest : List Step)
    (hs : s.Steps = []) (m : Machine σ) (h : (stepResult act e s m.world).1 = .nil) :
    allLoop act e (s :: rest) m =
      allLoop act e rest
        { world := (stepResult act e s m.world).2, trace := m.trace ++ stepEvents e s } := by
  simp only [allLoop, install_childless act e s hs, h]

theorem allLoop_cons_stop {σ : Type} (act : Exec σ) (e : Engine) (s : Step) (rest : List Step)
    (hs : s.Steps = []) (m : Machine σ) (h : (stepResult act e s m.world).1 ≠ .nil) :
    allLoop act e (s :: rest) m =
      ((stepResult act e s m.world).1,
        { world := (stepResult act e s m.world).2, trace := m.trace ++ stepEvents e s }) := by
  cases hr : (stepResult act e s m.world).1 with
  | nil => exact absurd hr h
  | err msg => simp only [allLoop, install_childless act e s hs, hr]
  | panic msg => simp only [allLoop, install_childless act e s hs, hr]

/-- The run of a pipeline of steps without children in which every action succeeds. -/
theorem allLoop_all_succeed {σ : Type} (act : Exec σ) (e : Engine) (p : List Step)
    (hch : ∀ s ∈ p, s.Steps = []) (w : σ) (t : List Event)
    (hok : ∀ j sj, p[j]? = some sj →
      (stepResult act e sj (worldAfter act e (p.take j) w)).1 = .nil) :
    allLoop act e p { world := w, trace := t } =
      (.nil, { world := worldAfter act e p w, trace := t ++ p.flatMap (stepEvents e) }) := by
  induction p generalizing w t with
  | nil => simp [allLoop, worldAfter]
  | cons x rest ih =>
    have hx : (stepResult act e x w).1 = .nil := by
      simpa [worldAfter] using hok 0 x (by simp)
    rw [allLoop_cons_nil act e x rest (hch x (by simp)) _ hx]
    rw [ih (fun s hs => hch s (List.mem_cons_of_mem _ hs))]
    · simp [worldAfter, List.flatMap_cons, List.append_assoc]
    · intro j sj hj
      have := hok (j + 1) sj (by simpa using hj)
      simpa [worldAfter] using this

/-- The run of a pipeline of steps without children up to the first action that does not
succeed: the run ends there with the result of that action. -/
theorem allLoop_first_failure {σ : Type} (act : Exec σ) (e : Engine) (p : List Step)
    (hch : ∀ s ∈ p, s.Steps = []) (k : Nat) (s : Step) (w : σ) (t : List Event)
    (hk : p[k]? = some s)
    (hok : ∀ j sj, j < k → p[j]? = some sj →
      (stepResult act e sj (worldAfter act e (p.take j) w)).1 = .nil)
    (hfail : (stepResult act e s (worldAfter act e (p.take k) w)).1 ≠ .nil) :
    allLoop act e p { world := w, trace := t } =
      ((stepResult act e s (worldAfter act e (p.take k) w)).1,
        { world := (stepResult act e s (worldAfter act e (p.take k) w)).2,
          trace := t ++ (p.take (k + 1)).flatMap (stepEvents e) }) := by
  induction p generalizing k w t with
  | nil => simp at hk
  | cons x rest ih =>
    cases k with
    | zero =>
      simp only [List.getElem?_cons_zero, Option.some.injEq] at hk
      subst hk
      simp only [List.take_zero, worldAfter] at hfail ⊢
      rw [allLoop_cons_stop act e x rest (hch x (by simp)) _ hfail]
      simp
    | succ k =>
      have hx : (stepResult act e x w).1 = .nil := by
        simpa [worldAfter] using hok 0 x (by omega) (by simp)
      rw [allLoop_cons_nil act e x rest (hch x (by simp)) _ hx]
      simp only [List.getElem?_cons_succ] at hk
      simp only [List.take_succ_cons, worldAfter] at hfail ⊢
      rw [ih (fun s hs => hch s (List.mem_cons_of_mem _ hs)) k _ _ hk _ hfail]
      · simp [List.flatMap_cons, List.append_assoc]
      · intro j sj hj hsj
        have := hok (j + 1) sj (by omega) (by simpa using hsj)
        simpa [worldAfter] using this

theorem DeploySteps_childless : ∀ s ∈ DeploySteps, s.Steps = [] := by
  intro s hs
  simp only [DeploySteps, List.mem_cons, List.mem_singleton, List.not_mem_nil, or_false] at hs
  rcases hs with h | h | h | h | h | h | h | h | h | h | h | h | h | h <;> subst h <;> rfl

theorem UpdateSteps_childless : ∀ s ∈ UpdateSteps, s.Steps = [] := by
  intro s hs
  simp only [UpdateSteps, List.mem_cons, List.mem_singleton, List.not_mem_nil, or_false] at hs
  rcases hs with h | h | h | h | h | h | h | h | h <;> subst h <;> rfl

theorem runPipeline_check_failed {σ : Type} (act : Exec σ) (e : Engine) (p : List Step)
    (steps : String) (m : Machine σ) (err : String) (h : e.check = some err) :
    runPipeline act e p steps m = (.err err, m) := by
  simp [runPipeline, h]

theorem runPipeline_empty {σ : Type} (act : Exec σ) (e : Engine) (p : List Step)
    (m : Machine σ) (h : e.check = none) :
    runPipeline act e p "" m = allLoop act e p m := by
  simp [runPipeline, h, String.utf8ByteSize, String.utf8ByteSize.go]

/-- C7: when `check` fails, `Install` and `Update` return the error of `check` for every
step selector, and leave the world and the trace as they were: no action is run and no step
is announced. -/
theorem C7_check_gates_pipeline {σ : Type} (act : Exec σ) (e : Engine) (steps : String)
    (m : Machine σ) (err : String) (h : e.check = some err) :
    e.Install act steps m = (.err err, m) ∧ e.Update act steps m = (.err err, m) :=
  ⟨runPipeline_check_failed act e DeploySteps steps m err h,
   runPipeline_check_failed act e UpdateSteps steps m err h⟩

/-- C7, at a concrete engine: a single worker node, selector "3,5". -/
theorem C7_check_gates_pipeline_witness :
    (Engine.ofConfig "" "" [Node.ofConfig "10.0.0.1" "w1" false false true]).Install
        countingExec "3,5" { world := 0, trace := [] }
      = (.err "single node need all roles (etcd controlplane worker)",
          { world := 0, trace := [] }) :=
  (C7_check_gates_pipeline countingExec
    (Engine.ofConfig "" "" [Node.ofConfig "10.0.0.1" "w1" false false true]) "3,5"
    { world := 0, trace := [] } "single node need all roles (etcd controlplane worker)"
    (by decide)).1

theorem stepResult_nil {σ : Type} (act : Exec σ) (e : Engine)
    (hall : ∀ a w, (act a e w).1 = .nil) (s : Step) (w : σ) :
    (stepResult act e s w).1 = .nil := by
  unfold stepResult
  cases s.run with
  | none => rfl
  | some a => exact hall a w

theorem selectedLoop_all_succeed {σ : Type} (act : Exec σ) (e : Engine) (p : List Step)
    (hall : ∀ a w, (act a e w).1 = .nil) (li : List String)
    (hvalid : ∀ k ∈ li.filterMap strconv.Atoi, ∃ s, Selects p k s) (w : σ) (t : List Event) :
    selectedLoop act e p li { world := w, trace := t } =
      (.nil,
        { world := worldAfter act e ((li.filterMap strconv.Atoi).filterMap (stepByNum p)) w,
          trace := t ++
            ((li.filterMap strconv.Atoi).filterMap (stepByNum p)).flatMap (stepEvents e) }) ∧
    ((li.filterMap strconv.Atoi).filterMap (stepByNum p)).map Step.Num
      = li.filterMap strconv.Atoi := by
  induction li generalizing w t with
  | nil => simp [selectedLoop, worldAfter]
  | cons i rest ih =>
    cases hi : strconv.Atoi i with
    | none =>
      have hv : ∀ k ∈ rest.filterMap strconv.Atoi, ∃ s, Selects p k s := by
        intro k hk
        exact hvalid k (by simp [List.filterMap_cons, hi]; simpa using hk)
      simp only [selectedLoop, hi, List.filterMap_cons]
      exact ih hv w t
    | some n =>
      have hv : ∀ k ∈ rest.filterMap strconv.Atoi, ∃ s, Selects p k s := by
        intro k hk
        exact hvalid k (by simp only [List.filterMap_cons, hi]; exact List.mem_cons_of_mem _ hk)
      obtain ⟨s, h0, hidx, hby, hch, hnum⟩ := hvalid n (by simp [List.filterMap_cons, hi])
      have hlt : ¬ wrapInt64 (n - 1) < 0 := by omega
      simp only [selectedLoop, hi, List.filterMap_cons, hlt, if_false, hidx, hby,
        install_childless act e s hch, stepResult_nil act e hall s w]
      obtain ⟨h1, h2⟩ := ih hv (stepResult act e s w).2 (t ++ stepEvents e s)
      rw [h1]
      simp [worldAfter, List.flatMap_cons, List.append_assoc, h2, hnum]

theorem DeploySteps_selects (k : Int) (h1 : 1 ≤ k) (h2 : k ≤ 14) :
    ∃ s, Selects DeploySteps k s := by
  interval_cases k <;> exact ⟨_, by decide, by rfl, by rfl, by rfl, by rfl⟩

theorem UpdateSteps_selects (k : Int) (h1 : 1 ≤ k) (h2 : k ≤ 9) :
    ∃ s, Selects UpdateSteps k s := by
  interval_cases k <;> exact ⟨_, by decide, by rfl, by rfl, by rfl, by rfl⟩

theorem runPipeline_selected {σ : Type} (act : Exec σ) (e : Engine) (p : List Step)
    (steps : String) (m : Machine σ) (hne : steps ≠ "") (hc : e.check = none) :
    runPipeline act e p steps m =
      selectedLoop act e p
        (if (strings.Split steps ',').head? = some "1" then strings.Split steps ','
          else "1" :: strings.Split steps ',') m := by
  have hpos : 0 < steps.utf8ByteSize := (utf8ByteSize_pos_iff steps).mpr hne
  simp only [runPipeline, hc, gt_iff_lt, hpos, if_true]
  cases hsp : strings.Split steps ',' with
  | nil => exact absurd hsp (splitAux_ne_nil _ _ _)
  | cons first rest =>
    by_cases hf : first = "1"
    · simp [hf]
    · simp [hf]

/-- C5: for a non-empty selector, an engine that passes `check` and actions that all
succeed, `Install` (resp. `Update`) returns `nil` after running, for the numbers of
`selection steps` in that order (the entries that parse, with 1 put in front when the first
entry is not "1"), the step of the pipeline whose `Num` is that number, provided the numbers
lie in 1..14 (resp. 1..9): the trace grows by the notification and the action of each of
these steps and by nothing else. The selectors "3,5", "1,2" and "x,2" select [1,3,5],
[1,2] and [1,2]. -/
theorem C5_selected_steps {σ : Type} (act : Exec σ) (e : Engine) (steps : String)
    (w : σ) (t : List Event) (hne : steps ≠ "") (hc : e.check = none)
    (hall : ∀ a w, (act a e w).1 = .nil) :
    ((∀ k ∈ selection steps, 1 ≤ k ∧ k ≤ 14) →
      e.Install act steps { world := w, trace := t } =
        (.nil,
          { world := worldAfter act e ((selection steps).filterMap (stepByNum DeploySteps)) w,
            trace := t ++ ((selection steps).filterMap (stepByNum DeploySteps)).flatMap
              (stepEvents e) }) ∧
      ((selection steps).filterMap (stepByNum DeploySteps)).map Step.Num = selection steps) ∧
    ((∀ k ∈ selection steps, 1 ≤ k ∧ k ≤ 9) →
      e.Update act steps { world := w, trace := t } =
        (.nil,
          { world := worldAfter act e ((selection steps).filterMap (stepByNum UpdateSteps)) w,
            trace := t ++ ((selection steps).filterMap (stepByNum UpdateSteps)).flatMap
              (stepEvents e) }) ∧
      ((selection steps).filterMap (stepByNum UpdateSteps)).map Step.Num = selection steps) ∧
    selection "3,5" = [1, 3, 5] ∧ selection "1,2" = [1, 2] ∧ selection "x,2" = [1, 2] := by
  refine ⟨?_, ?_, by decide, by decide, by decide⟩
  · intro hk
    unfold Engine.Install
    rw [runPipeline_selected act e DeploySteps steps _ hne hc]
    exact selectedLoop_all_succeed act e DeploySteps hall _
      (fun k hm => DeploySteps_selects k (hk k hm).1 (hk k hm).2) w t
  · intro hk
    unfold Engine.Update
    rw [runPipeline_selected act e UpdateSteps steps _ hne hc]
    exact selectedLoop_all_succeed act e UpdateSteps hall _
      (fun k hm => UpdateSteps_selects k (hk k hm).1 (hk k hm).2) w t

/-- C5, at a concrete run: the selector "3,5" on a complete single node runs the steps
1, 3 and 5 of the Deploy pipeline. -/
theorem C5_selected_steps_witness :
    (Engine.ofConfig "" "" [Node.ofConfig "10.0.0.1" "m1" true true true]).Install
        countingExec "3,5" { world := 0, trace := [] }
      = (.nil,
          { world := 3,
            trace := [.print "1) connect\n", .run .connect,
                      .print "3) install chrony\n", .run .installChrony,
                      .print "5) load docker image\n", .run .loadDockerImage] }) :=
  ((C5_selected_steps countingExec
      (Engine.ofConfig "" "" [Node.ofConfig "10.0.0.1" "m1" true true true]) "3,5" 0 []
      (by decide) (by decide) (fun _ _ => rfl)).1 (by decide)).1

/-- C9: for an engine that passes `check`, `Install` (resp. `Update`) with the empty selector
runs the 14 Deploy steps (resp. the 9 Update steps), numbered 1..14 (resp. 1..9), in order:
when every action succeeds it returns `nil` with the events of all steps in the trace; when
the action of the step at position `k` is the first that returns an error, the run returns
that error and the trace holds the events of the steps up to that one and of no later step,
the world being the one that action left. -/
theorem C9_full_run {σ : Type} (act : Exec σ) (e : Engine) (hc : e.check = none)
    (w : σ) (t : List Event) :
    (DeploySteps.map Step.Num = [1, 2, 3, 4, 5, 6, 7, 8, 9, 10, 11, 12, 13, 14] ∧
      UpdateSteps.map Step.Num = [1, 2, 3, 4, 5, 6, 7, 8, 9]) ∧
    ((∀ j sj, DeploySteps[j]? = some sj →
        (stepResult act e sj (worldAfter act e (DeploySteps.take j) w)).1 = .nil) →
      e.Install act "" { world := w, trace := t } =
        (.nil, { world := worldAfter act e DeploySteps w,
                 trace := t ++ DeploySteps.flatMap (stepEvents e) })) ∧
    (∀ k s msg, DeploySteps[k]? = some s →
      (∀ j sj, j < k → DeploySteps[j]? = some sj →
        (stepResult act e sj (worldAfter act e (DeploySteps.take j) w)).1 = .nil) →
      (stepResult act e s (worldAfter act e (DeploySteps.take k) w)).1 = .err msg →
      e.Install act "" { world := w, trace := t } =
        (.err msg,
          { world := (stepResult act e s (worldAfter act e (DeploySteps.take k) w)).2,
            trace := t ++ (DeploySteps.take (k + 1)).flatMap (stepEvents e) })) ∧
    ((∀ j sj, UpdateSteps[j]? = some sj →
        (stepResult act e sj (worldAfter act e (UpdateSteps.take j) w)).1 = .nil) →
      e.Update act "" { world := w, trace := t } =
        (.nil, { world := worldAfter act e UpdateSteps w,
                 trace := t ++ UpdateSteps.flatMap (stepEvents e) })) ∧
    (∀ k s msg, UpdateSteps[k]? = some s →
      (∀ j sj, j < k → UpdateSteps[j]? = some sj →
        (stepResult act e sj (worldAfter act e (UpdateSteps.take j) w)).1 = .nil) →
      (stepResult act e s (worldAfter act e (UpdateSteps.take k) w)).1 = .err msg →
      e.Update act "" { world := w, trace := t } =
        (.err msg,
          { world := (stepResult act e s (worldAfter act e (UpdateSteps.take k) w)).2,
            trace := t ++ (UpdateSteps.take (k + 1)).flatMap (stepEvents e) })) := by
  refine ⟨⟨by decide, by decide⟩, ?_, ?_, ?_, ?_⟩
  · intro hok
    unfold Engine.Install
    rw [runPipeline_empty act e DeploySteps _ hc]
    exact allLoop_all_succeed act e DeploySteps DeploySteps_childless w t hok
  · intro k s msg hk hok hfail
    unfold Engine.Install
    rw [runPipeline_empty act e DeploySteps _ hc]
    rw [allLoop_first_failure act e DeploySteps DeploySteps_childless k s w t hk hok
      (by rw [hfail]; exact Ret.noConfusion), hfail]
  · intro hok
    unfold Engine.Update
    rw [runPipeline_empty act e UpdateSteps _ hc]
    exact allLoop_all_succeed act e UpdateSteps UpdateSteps_childless w t hok
  · intro k s msg hk hok hfail
    unfold Engine.Update
    rw [runPipeline_empty act e UpdateSteps _ hc]
    rw [allLoop_first_failure act e UpdateSteps UpdateSteps_childless k s w t hk hok
      (by rw [hfail]; exact Ret.noConfusion), hfail]

/-- C9, at a concrete run: on a complete single node, `Install` with the empty selector and
an `installChrony` that fails stops at step 3 with that error, after three calls. -/
theorem C9_full_run_witness :
    (Engine.ofConfig "" "" [Node.ofConfig "10.0.0.1" "m1" true true true]).Install
        chronyFailsExec "" { world := 0, trace := [] }
      = (.err "chrony: exit status 1",
          { world := 3,
            trace := [.print "1) connect\n", .run .connect, .print "2) init\n", .run .init,
                      .print "3) install chrony\n", .run .installChrony] }) :=
  (C9_full_run chronyFailsExec
      (Engine.ofConfig "" "" [Node.ofConfig "10.0.0.1" "m1" true true true])
      (by decide) 0 []).2.2.1 2 (.mk 3 "install chrony" [] (some .installChrony))
    "chrony: exit status 1" rfl
    (by
      intro j sj hj hsj
      interval_cases j
      · simp only [DeploySteps, List.getElem?_cons_zero, Option.some.injEq] at hsj
        subst hsj
        rfl
      · simp only [DeploySteps, List.getElem?_cons_succ, List.getElem?_cons_zero,
          Option.some.injEq] at hsj
        subst hsj
        rfl)
    rfl

/-! ## The remote node -/

theorem intercalate_go_append (sep : String) (rest : List String) (acc b : String) :
    String.intercalate.go (acc ++ b) sep rest = acc ++ String.intercalate.go b sep rest := by
  induction rest generalizing b with
  | nil => rfl
  | cons a rest ih =>
    simp only [String.intercalate.go]
    rw [String.append_assoc, String.append_assoc, ih, ← String.append_assoc]

theorem strings_Join_eq_intercalate (cmds : List String) (sep : String) :
    strings.Join cmds sep = sep.intercalate cmds := by
  induction cmds with
  | nil => rfl
  | cons a rest ih =>
    cases rest with
    | nil => rfl
    | cons b rest =>
      simp only [strings.Join, ih, String.intercalate, String.intercalate.go]
      rw [intercalate_go_append]

/-- C10: the command line `Run` hands to the session is the commands, in the given order and
once each, with " && " between them when `cwd` is empty, and that text between "cd <cwd> && "
and " && cd ~" when `cwd` is not empty; it is the only command line sent, and it is sent
whenever the session opens. -/
theorem C10_Run_command_line (sshcli : SSHClient) (cwd : String) (cmds : List String) :
    (sshcli.NewSession = none →
      (Node.Run sshcli cwd cmds).1 =
        [if cwd = "" then " && ".intercalate cmds
         else "cd " ++ cwd ++ " && " ++ " && ".intercalate cmds ++ " && cd ~"]) ∧
    (sshcli.NewSession ≠ none → (Node.Run sshcli cwd cmds).1 = []) := by
  constructor
  · intro h
    unfold Node.Run
    rw [strings_Join_eq_intercalate]
    simp only [h]
    rcases hr : sshcli.Run _ with ⟨err, out⟩
    by_cases hc : cwd = ""
    · subst hc
      cases err <;> simp_all
    · cases err <;> simp_all
  · intro h
    unfold Node.Run
    cases hs : sshcli.NewSession with
    | none => exact absurd hs h
    | some err => rfl

/-- C10, at the call `node.Install` makes for the resource `init`. -/
theorem C10_Run_command_line_witness :
    (Node.Run okClient "resource/init" ["chmod +x install.sh ", "bash install.sh a b"]).1
      = ["cd resource/init && chmod +x install.sh  && bash install.sh a b && cd ~"] :=
  (C10_Run_command_line okClient "resource/init"
    ["chmod +x install.sh ", "bash install.sh a b"]).1 rfl

/-- C6 (the code at the failing input): for a node of architecture aarch64, `copyDir` of a
resource directory with the subdirectories `aarch64` and `x86_64` passes over `x86_64`, but
sends the file under `aarch64` to the path that still holds the element `aarch64`, in a
directory it never asked the remote host to make. -/
theorem C6_copyDir_keeps_arch_element :
    Node.copyDir { Node.New with arch := "aarch64" } acceptAll
        "resource/kubeadm" "resource/kubeadm" kubeadmTree []
      = (none,
          [.MkdirAll "resource/kubeadm",
           .MkdirAll "resource/kubeadm",
           .copyFile "resource/kubeadm/aarch64/kubeadm" "resource/kubeadm/aarch64/kubeadm",
           .copyFile "resource/kubeadm/install.sh" "resource/kubeadm/install.sh"]) := by
  decide

/-! ## The fan-out of the engine methods -/

theorem launched_eq_filter (sel : Node → Bool) (l : List Node) :
    launched sel l = l.filter sel := by
  induction l with
  | nil => rfl
  | cons n rest ih =>
    unfold launched
    cases h : sel n <;> simp [h, ih]

/-- The first error in a list of unit results. -/
theorem collect_findSome (g : errgroup.Group) (r : Option String)
    (fin : List (Node × Option String)) (hg : g.err = fin.findSome? Prod.snd) (n : Node) :
    (g.collect r).err = (fin ++ [(n, r)]).findSome? Prod.snd := by
  rw [List.findSome?_append]
  cases r with
  | none =>
    simp only [errgroup.Group.collect, hg]
    cases fin.findSome? Prod.snd <;> simp
  | some err =>
    simp only [errgroup.Group.collect]
    cases h : g.err with
    | none =>
      rw [h] at hg
      simp [← hg]
    | some x =>
      rw [h] at hg
      simp [← hg, h]

theorem runUnits_spec {τ : Type} (unit : Node → τ → Option String × τ) (l : List Node)
    (g : errgroup.Group) (fin : List (Node × Option String)) (s : τ)
    (hg : g.err = fin.findSome? Prod.snd) :
    (runUnits unit l g fin s).2.1.map Prod.fst = fin.map Prod.fst ++ l ∧
    (runUnits unit l g fin s).1.err = (runUnits unit l g fin s).2.1.findSome? Prod.snd := by
  induction l generalizing g fin s with
  | nil => simp [runUnits, hg]
  | cons n rest ih =>
    simp only [runUnits]
    have := ih (g.collect (unit n s).1) (fin ++ [(n, (unit n s).1)]) (unit n s).2
      (collect_findSome g _ fin hg n)
    simpa using this

theorem findSome_snd_eq_none (fin : List (Node × Option String)) :
    fin.findSome? Prod.snd = none ↔ ∀ p ∈ fin, p.2 = none := by
  simp [List.findSome?_eq_none_iff]

theorem findSome_snd_eq_some (fin : List (Node × Option String)) (x : String)
    (h : fin.findSome? Prod.snd = some x) :
    ∃ pre n post, fin = pre ++ (n, some x) :: post ∧ ∀ p ∈ pre, p.2 = none := by
  induction fin with
  | nil => simp at h
  | cons p rest ih =>
    rcases p with ⟨n, r⟩
    cases r with
    | some y =>
      simp at h
      subst h
      exact ⟨[], n, rest, rfl, by simp⟩
    | none =>
      simp at h
      obtain ⟨pre, m, post, heq, hpre⟩ := ih h
      refine ⟨(n, none) :: pre, m, post, by simp [heq], ?_⟩
      intro p hp
      rcases List.mem_cons.mp hp with h1 | h1
      · subst h1; rfl
      · exact hpre p h1

theorem connectUnit_eq (env : Hosts) (n : Node) (log : CallLog) :
    connectUnit env n log = (errOf (env log n .Connect), log ++ [(n, Call.Connect)]) := by
  unfold connectUnit Hosts.call
  cases h : env log n .Connect <;> simp [errOf]

theorem runUnits_prefix {τ : Type} (unit : Node → τ → Option String × τ) (l : List Node)
    (g : errgroup.Group) (fin : List (Node × Option String)) (s : τ) :
    ∃ more, (runUnits unit l g fin s).2.1 = fin ++ more := by
  induction l generalizing g fin s with
  | nil => exact ⟨[], by simp [runUnits]⟩
  | cons n rest ih =>
    simp only [runUnits]
    obtain ⟨more, h⟩ := ih (g.collect (unit n s).1) (fin ++ [(n, (unit n s).1)]) (unit n s).2
    exact ⟨(n, (unit n s).1) :: more, by simp [h]⟩

theorem runUnits_connect (env : Hosts) (l : List Node) (g : errgroup.Group)
    (fin : List (Node × Option String)) (log : CallLog) :
    (runUnits (connectUnit env) l g fin log).2.2
      = log ++ l.map (fun n => (n, Call.Connect)) ∧
    ∀ i n, l[i]? = some n →
      (runUnits (connectUnit env) l g fin log).2.1[fin.length + i]? =
        some (n, errOf (env (log ++ (l.take i).map (fun m => (m, Call.Connect))) n
          .Connect)) := by
  induction l generalizing g fin log with
  | nil => simp [runUnits]
  | cons m rest ih =>
    simp only [runUnits, connectUnit_eq]
    obtain ⟨h1, h2⟩ := ih (g.collect (errOf (env log m .Connect)))
      (fin ++ [(m, errOf (env log m .Connect))]) (log ++ [(m, Call.Connect)])
    refine ⟨by simp [h1], ?_⟩
    intro i n hi
    cases i with
    | zero =>
      simp only [List.getElem?_cons_zero, Option.some.injEq] at hi
      subst hi
      obtain ⟨more, hm⟩ := runUnits_prefix (connectUnit env) rest
        (g.collect (errOf (env log m .Connect)))
        (fin ++ [(m, errOf (env log m .Connect))]) (log ++ [(m, Call.Connect)])
      rw [hm, List.append_assoc, Nat.add_zero,
        List.getElem?_append_right (Nat.le_refl _)]
      simp
    | succ i =>
      simp only [List.getElem?_cons_succ] at hi
      have := h2 i n hi
      simp only [List.length_append, List.length_singleton] at this
      rw [show fin.length + (i + 1) = fin.length + 1 + i by omega, this]
      simp

/-- C13 (as stated) fails: in `installCalico` every unit of the fan-out succeeds, and the
step still returns an error, the one of `kubectl apply` on the master, which no unit
returned. -/
theorem C13_counterexample :
    (Engine.installCalico applyFailsHosts id oneNewNode []).1 = .err "kubectl: exit status 1" ∧
    (Engine.installCalico applyFailsHosts id oneNewNode []).2.1
      = [(joinMaster, none), (joinNode, none)] := by
  decide

/-- C13 (amended): in the fan-out of a step, whatever the units return and in whatever order
the scheduler runs them, every node the guard lets through has its unit run to its return
(once each, also when other units fail); `eg.Wait()` returns `nil` iff no unit returned an
error, and otherwise the error of the first unit, in the order of their returns, that
returned one. The step `connect` is the fan-out of the `Connect` calls on all nodes and
returns what `eg.Wait()` returns. The step `installCalico` returns the error of
`eg.Wait()` when there is one, and else what `kubectl apply` on the master returns. -/
theorem C13_fan_out_first_error (sched : List Node → List Node)
    (hs : ∀ l, (sched l).Perm l) :
    (∀ (τ : Type) (sel : Node → Bool) (unit : Node → τ → Option String × τ)
        (nodes : List Node) (s : τ),
      ((fanOut sel unit sched nodes s).finished.map Prod.fst).Perm (nodes.filter sel) ∧
      ((fanOut sel unit sched nodes s).err = none ↔
        ∀ p ∈ (fanOut sel unit sched nodes s).finished, p.2 = none) ∧
      (∀ x, (fanOut sel unit sched nodes s).err = some x →
        ∃ pre n post, (fanOut sel unit sched nodes s).finished = pre ++ (n, some x) :: post ∧
          ∀ p ∈ pre, p.2 = none)) ∧
    (∀ (env : Hosts) (e : Engine) (log : CallLog),
      (sched e.nodes).Perm e.nodes ∧
      ((e.connect env sched log).finished.map Prod.fst) = sched e.nodes ∧
      (e.connect env sched log).state
        = log ++ (sched e.nodes).map (fun n => (n, Call.Connect)) ∧
      (∀ i n, (sched e.nodes)[i]? = some n →
        (e.connect env sched log).finished[i]? =
          some (n, errOf (env (log ++ ((sched e.nodes).take i).map
            (fun m => (m, Call.Connect))) n .Connect))) ∧
      ((e.connect env sched log).err = none ↔
        ∀ p ∈ (e.connect env sched log).finished, p.2 = none) ∧
      (∀ x, (e.connect env sched log).err = some x →
        ∃ pre n post, (e.connect env sched log).finished = pre ++ (n, some x) :: post ∧
          ∀ p ∈ pre, p.2 = none)) ∧
    (∀ (env : Hosts) (e : Engine) (log : CallLog) (master : Node), e.master = some master →
      (∀ x, (fanOut (fun _ => true) (installUnit env "calico" []) sched e.nodes log).err
          = some x →
        e.installCalico env sched log =
          (.err x,
            (fanOut (fun _ => true) (installUnit env "calico" []) sched e.nodes log).finished,
            (fanOut (fun _ => true) (installUnit env "calico" []) sched e.nodes log).state)) ∧
      ((fanOut (fun _ => true) (installUnit env "calico" []) sched e.nodes log).err = none →
        e.installCalico env sched log =
          (retOf (errOf (env
              (fanOut (fun _ => true) (installUnit env "calico" []) sched e.nodes log).state
              master (.Run "resource/calico" ["kubectl apply -f calico.yaml"]))),
            (fanOut (fun _ => true) (installUnit env "calico" []) sched e.nodes log).finished,
            (fanOut (fun _ => true) (installUnit env "calico" []) sched e.nodes log).state ++
              [(master, .Run "resource/calico" ["kubectl apply -f calico.yaml"])]))) := by
  have gen : ∀ (τ : Type) (sel : Node → Bool) (unit : Node → τ → Option String × τ)
      (nodes : List Node) (s : τ),
      ((fanOut sel unit sched nodes s).finished.map Prod.fst) = sched (nodes.filter sel) ∧
      ((fanOut sel unit sched nodes s).err = none ↔
        ∀ p ∈ (fanOut sel unit sched nodes s).finished, p.2 = none) ∧
      (∀ x, (fanOut sel unit sched nodes s).err = some x →
        ∃ pre n post, (fanOut sel unit sched nodes s).finished = pre ++ (n, some x) :: post ∧
          ∀ p ∈ pre, p.2 = none) := by
    intro τ sel unit nodes s
    obtain ⟨h1, h2⟩ := runUnits_spec unit (sched (launched sel nodes)) errgroup.Group.zero []
      s rfl
    simp only [fanOut, errgroup.Group.Wait]
    refine ⟨by simpa [launched_eq_filter] using h1, ?_, ?_⟩
    · rw [h2]; exact findSome_snd_eq_none _
    · intro x hx
      rw [h2] at hx
      exact findSome_snd_eq_some _ x hx
  refine ⟨?_, ?_, ?_⟩
  · intro τ sel unit nodes s
    obtain ⟨h1, h2, h3⟩ := gen τ sel unit nodes s
    exact ⟨h1 ▸ hs _, h2, h3⟩
  rotate_left
  · intro env e log master hm
    have hj : filepath.Join ["resource", "calico"] = "resource/calico" := by decide
    constructor
    · intro x hx
      simp only [Engine.installCalico, hx]
    · intro hnone
      simp only [Engine.installCalico, hnone, hm, Hosts.call, hj]
      cases hr : env (fanOut (fun _ => true) (installUnit env "calico" []) sched e.nodes
          log).state master (.Run "resource/calico" ["kubectl apply -f calico.yaml"]) <;>
        simp [retOf, errOf]
  · intro env e log
    obtain ⟨h1, h2, h3⟩ := gen CallLog (fun _ => true) (connectUnit env) e.nodes log
    have hf : e.nodes.filter (fun _ => true) = e.nodes := by simp
    rw [hf] at h1
    have hl : launched (fun _ => true) e.nodes = e.nodes := by
      rw [launched_eq_filter, hf]
    obtain ⟨c1, c2⟩ := runUnits_connect env (sched e.nodes) errgroup.Group.zero [] log
    refine ⟨hs _, h1, ?_, ?_, h2, h3⟩
    · simp only [Engine.connect, fanOut, hl]
      exact c1
    · intro i n hi
      have := c2 i n hi
      simp only [Engine.connect, fanOut, hl]
      simpa using this

/-- C13 (amended), at a concrete run: five nodes, the connections to three of them fail, and the units
return in the reverse of the order they were launched in: all five `Connect` calls are made
and the error is the one of the first unit to return with an error. -/
theorem C13_fan_out_first_error_witness :
    (Engine.connect fiveHosts List.reverse fiveNodes []).err = some "dial 10.0.0.4" ∧
    (Engine.connect fiveHosts List.reverse fiveNodes []).state.length = 5 :=
  have h := (C13_fan_out_first_error List.reverse (fun l => List.reverse_perm l)).2.1
    fiveHosts fiveNodes []
  ⟨by decide, by rw [h.2.2.1]; decide⟩

/-! ## The methods `init` and `join` -/

theorem mapSet_fresh (m : List (String × String)) (k v : String)
    (h : k ∉ m.map Prod.fst) : mapSet m k v = m ++ [(k, v)] := by
  induction m with
  | nil => rfl
  | cons p rest ih =>
    rcases p with ⟨k1, v1⟩
    simp only [List.map_cons, List.mem_cons, not_or] at h
    have hne : ¬ k1 = k := fun h2 => h.1 h2.symm
    simp [mapSet, hne, ih h.2]

theorem hostsMap_nodup (l : List Node) (m : List (String × String))
    (hd : (m.map Prod.fst ++ l.map Node.GetAddress).Nodup) :
    hostsMap l m = m ++ hostPairs l := by
  induction l generalizing m with
  | nil => simp [hostsMap, hostPairs]
  | cons n rest ih =>
    simp only [hostsMap]
    have hfresh : n.GetAddress ∉ m.map Prod.fst := by
      intro hmem
      rw [List.nodup_append] at hd
      exact hd.2.2 hmem (by simp)
    rw [mapSet_fresh m _ _ hfresh, ih]
    · simp [hostPairs]
    · simp only [List.map_append, List.map_cons, List.map_nil, List.append_assoc,
        List.singleton_append]
      simpa using hd

theorem addHostLoop_ok (env : Hosts) (n : Node)
    (hok : ∀ l a h, ∃ out, env l n (.AddHost a h) = .ok out)
    (l : List (String × String)) (log : CallLog) :
    addHostLoop env n l log = (none, log ++ l.map fun p => (n, Call.AddHost p.1 p.2)) := by
  induction l generalizing log with
  | nil => simp [addHostLoop]
  | cons p rest ih =>
    rcases p with ⟨a, h⟩
    obtain ⟨out, ho⟩ := hok log a h
    simp [addHostLoop, Hosts.call, ho, ih]

theorem addHostLoop_own (env : Hosts) (n : Node) (l : List (String × String))
    (log : CallLog) :
    ∃ cs, (addHostLoop env n l log).2 = log ++ cs ∧ ∀ c ∈ cs, c.1 = n := by
  induction l generalizing log with
  | nil => exact ⟨[], by simp [addHostLoop]⟩
  | cons p rest ih =>
    rcases p with ⟨a, h⟩
    simp only [addHostLoop, Hosts.call]
    cases hr : env log n (.AddHost a h) with
    | error err => exact ⟨[(n, .AddHost a h)], by simp⟩
    | ok out =>
      obtain ⟨cs, hcs, hown⟩ := ih (log ++ [(n, .AddHost a h)])
      refine ⟨(n, .AddHost a h) :: cs, by simp [hcs], ?_⟩
      intro c hc
      rcases List.mem_cons.mp hc with h1 | h1
      · subst h1; rfl
      · exact hown c h1

theorem initUnit_own (env : Hosts) (b64 : String → String)
    (order : Node → List (String × String) → List (String × String))
    (hosts : List (String × String)) (n : Node) (log : CallLog) :
    ∃ cs, (initUnit env b64 order hosts n log).2 = log ++ cs ∧ ∀ c ∈ cs, c.1 = n := by
  simp only [initUnit, Hosts.call]
  cases hr : env log n (.Install "init" [n.GetPassword b64, n.GetHostname]) with
  | error err => exact ⟨[(n, .Install "init" [n.GetPassword b64, n.GetHostname])], by simp⟩
  | ok out =>
    obtain ⟨cs, hcs, hown⟩ := addHostLoop_own env n (order n hosts)
      (log ++ [(n, .Install "init" [n.GetPassword b64, n.GetHostname])])
    refine ⟨(n, .Install "init" [n.GetPassword b64, n.GetHostname]) :: cs, by simp [hcs], ?_⟩
    intro c hc
    rcases List.mem_cons.mp hc with h1 | h1
    · subst h1; rfl
    · exact hown c h1

theorem initUnit_ok (env : Hosts) (b64 : String → String)
    (order : Node → List (String × String) → List (String × String))
    (hosts : List (String × String)) (n : Node) (log : CallLog)
    (hinst : ∀ l, ∃ out, env l n (.Install "init" [n.GetPassword b64, n.GetHostname]) = .ok out)
    (hok : ∀ l a h, ∃ out, env l n (.AddHost a h) = .ok out) :
    initUnit env b64 order hosts n log =
      (none, log ++ (n, Call.Install "init" [n.GetPassword b64, n.GetHostname]) ::
        (order n hosts).map fun p => (n, Call.AddHost p.1 p.2)) := by
  obtain ⟨out, ho⟩ := hinst log
  simp [initUnit, Hosts.call, ho, addHostLoop_ok env n hok]

/-- The calls a run of units adds to the log, seen from one node: nothing when the node has
no unit in the run, the calls of its unit when it has exactly one. -/
theorem runUnits_calls (unit : Node → CallLog → Option String × CallLog)
    (hown : ∀ m log, ∃ cs, (unit m log).2 = log ++ cs ∧ ∀ c ∈ cs, c.1 = m)
    (l : List Node) (g : errgroup.Group) (fin : List (Node × Option String))
    (log : CallLog) :
    ∃ calls, (runUnits unit l g fin log).2.2 = log ++ calls ∧
      (∀ n, n ∉ l → calls.filter (fun c => c.1 = n) = []) ∧
      (∀ n own, l.count n = 1 → (∀ log1, (unit n log1).2 = log1 ++ own) →
        calls.filter (fun c => c.1 = n) = own) := by
  induction l generalizing g fin log with
  | nil => exact ⟨[], by simp [runUnits]⟩
  | cons m rest ih =>
    simp only [runUnits]
    obtain ⟨cs, hcs, hcsown⟩ := hown m log
    obtain ⟨calls, hcalls, hnot, hone⟩ := ih (g.collect (unit m log).1)
      (fin ++ [(m, (unit m log).1)]) (unit m log).2
    refine ⟨cs ++ calls, by rw [hcalls, hcs, List.append_assoc], ?_, ?_⟩
    · intro n hn
      simp only [List.mem_cons, not_or] at hn
      rw [List.filter_append, hnot n hn.2, List.append_nil, List.filter_eq_nil_iff]
      intro c hc
      simp only [decide_eq_true_eq]
      rw [hcsown c hc]
      exact fun h => hn.1 h.symm
    · intro n own hcount hn
      rw [List.filter_append]
      by_cases hmn : m = n
      · subst hmn
        have hrest : m ∉ rest := by
          intro hmem
          have := List.count_pos_iff.mpr hmem
          simp at hcount
          omega
        rw [hnot m hrest, List.append_nil]
        have : cs = own := by
          have h1 := hn log
          rw [hcs] at h1
          exact List.append_cancel_left h1
        subst this
        rw [List.filter_eq_self]
        intro c hc
        simp [hcsown c hc]
      · have hc2 : rest.count n = 1 := by
          rw [List.count_cons] at hcount
          simpa [hmn] using hcount
        rw [hone n own hc2 hn]
        have : cs.filter (fun c => c.1 = n) = [] := by
          rw [List.filter_eq_nil_iff]
          intro c hc
          simp only [decide_eq_true_eq]
          rw [hcsown c hc]
          exact hmn
        rw [this, List.nil_append]

theorem addHostPairs_map (l : List (String × String)) :
    addHostPairs (l.map fun p => Call.AddHost p.1 p.2) = l := by
  induction l with
  | nil => rfl
  | cons p rest ih =>
    simp only [addHostPairs, List.map_cons, List.filterMap_cons] at ih ⊢
    rw [ih]

/-- C11 (as stated) fails: in a cluster of two new nodes whose calls all succeed, the
`AddHost` calls on the first node are not the pairs of the other node alone: its own pair
is among them. -/
theorem C11_counterexample :
    addHostPairs (callsOn (Node.ofConfig "10.0.0.1" "m1" true true false)
        (Engine.init allOk id (fun _ l => l) id twoNodes []).state)
      = [("10.0.0.1", "m1"), ("10.0.0.2", "w1")] ∧
    ¬ (addHostPairs (callsOn (Node.ofConfig "10.0.0.1" "m1" true true false)
        (Engine.init allOk id (fun _ l => l) id twoNodes []).state)).Perm
      (hostPairs (twoNodes.nodes.filter
        fun m => m ≠ Node.ofConfig "10.0.0.1" "m1" true true false)) := by
  refine ⟨by decide, ?_⟩
  intro h
  have := h.length_eq
  revert this
  decide

/-- C11 (amended): in a cluster with distinct addresses, for a node `n` flagged new whose
bootstrap install and `AddHost` calls succeed, the calls `init` makes on `n` are the install
of `init` with password and hostname, then one `AddHost` per entry of the map in the order
`range` hands them out; the pairs of these `AddHost` calls are, up to the order, the
(address, hostname) pairs of all nodes of the cluster, `n` itself included. A node that is
not flagged new receives no call. -/
theorem C11_init_hosts (env : Hosts) (b64 : String → String)
    (order : Node → List (String × String) → List (String × String))
    (sched : List Node → List Node) (e : Engine) (log : CallLog) (n : Node)
    (hs : ∀ l, (sched l).Perm l) (ho : ∀ m l, (order m l).Perm l)
    (hd : (e.nodes.map Node.GetAddress).Nodup) (hn : n ∈ e.nodes) (hnew : n.IsNew = true)
    (hinst : ∀ l, ∃ out, env l n (.Install "init" [n.GetPassword b64, n.GetHostname]) = .ok out)
    (hok : ∀ l a h, ∃ out, env l n (.AddHost a h) = .ok out) :
    ∃ calls, (e.init env b64 order sched log).state = log ++ calls ∧
      callsOn n calls =
        Call.Install "init" [n.GetPassword b64, n.GetHostname] ::
          (order n (hostPairs e.nodes)).map (fun p => Call.AddHost p.1 p.2) ∧
      (addHostPairs (callsOn n calls)).Perm (hostPairs e.nodes) ∧
      ∀ m, m.IsNew = false → callsOn m calls = [] := by
  have hmap : hostsMap e.nodes [] = hostPairs e.nodes := by
    rw [hostsMap_nodup e.nodes [] (by simpa using hd)]
    rfl
  have hnd : e.nodes.Nodup := List.Nodup.of_map _ hd
  obtain ⟨calls, hcalls, hnot, hone⟩ :=
    runUnits_calls (initUnit env b64 order (hostPairs e.nodes))
      (initUnit_own env b64 order (hostPairs e.nodes))
      (sched (launched Node.IsNew e.nodes)) errgroup.Group.zero [] log
  have hcount : (sched (launched Node.IsNew e.nodes)).count n = 1 := by
    rw [(hs _).count_eq, launched_eq_filter]
    exact List.count_eq_one_of_mem (hnd.filter _) (List.mem_filter.mpr ⟨hn, hnew⟩)
  have hown := hone n
    ((n, Call.Install "init" [n.GetPassword b64, n.GetHostname]) ::
      (order n (hostPairs e.nodes)).map fun p => (n, Call.AddHost p.1 p.2)) hcount
    (fun log1 => by rw [initUnit_ok env b64 order _ n log1 hinst hok])
  have hcallsOn : callsOn n calls =
      Call.Install "init" [n.GetPassword b64, n.GetHostname] ::
        (order n (hostPairs e.nodes)).map (fun p => Call.AddHost p.1 p.2) := by
    simp only [callsOn, hown, List.map_cons, List.map_map]
    rfl
  refine ⟨calls, ?_, hcallsOn, ?_, ?_⟩
  · simp only [Engine.init, fanOut, hmap]
    exact hcalls
  · rw [hcallsOn]
    have : addHostPairs (Call.Install "init" [n.GetPassword b64, n.GetHostname] ::
        (order n (hostPairs e.nodes)).map (fun p => Call.AddHost p.1 p.2))
        = order n (hostPairs e.nodes) := by
      have h2 := addHostPairs_map (order n (hostPairs e.nodes))
      simp only [addHostPairs, List.filterMap_cons] at h2 ⊢
      exact h2
    rw [this]
    exact ho _ _
  · intro m hm
    have hmn : m ∉ sched (launched Node.IsNew e.nodes) := by
      intro hmem
      have h2 := (hs _).mem_iff.mp hmem
      rw [launched_eq_filter] at h2
      have h3 := (List.mem_filter.mp h2).2
      rw [hm] at h3
      exact Bool.noConfusion h3
    simp [callsOn, hnot m hmn]

/-- C11 (amended), at a concrete cluster: two new nodes, every call succeeds, the units run
in the reverse of the order they were launched in and `range` hands the entries out in
reverse. -/
theorem C11_init_hosts_witness :
    ∃ calls, (twoNodes.init allOk id (fun _ l => l.reverse) List.reverse []).state
        = [] ++ calls ∧
      callsOn (Node.ofConfig "10.0.0.2" "w1" false false true) calls =
        [.Install "init" ["", "w1"], .AddHost "10.0.0.2" "w1", .AddHost "10.0.0.1" "m1"] := by
  obtain ⟨calls, h1, h2, _, _⟩ := C11_init_hosts allOk id (fun _ l => l.reverse) List.reverse
    twoNodes [] (Node.ofConfig "10.0.0.2" "w1" false false true)
    (fun l => List.reverse_perm l) (fun _ l => List.reverse_perm l) (by decide) (by decide)
    rfl (fun _ => ⟨"", rfl⟩) (fun _ _ _ => ⟨"", rfl⟩)
  exact ⟨calls, h1, h2⟩

theorem joinStep_rank (env : Hosts) (e : Engine) (master : Node) (nj : String) (n : Node)
    (pc : JoinPc) (v : JoinVars) :
    (joinStep env e master nj n pc v).1.rank ≤ pc.rank - 1 := by
  cases pc <;> simp only [joinStep, Hosts.call] <;>
    first
    | (split <;> simp [JoinPc.rank])
    | simp [JoinPc.rank]

theorem joinStep_iterate_rank (env : Hosts) (e : Engine) (master : Node) (nj : String)
    (n : Node) (k : Nat) (pc : JoinPc) (v : JoinVars) :
    ((fun s : JoinPc × JoinVars => joinStep env e master nj n s.1 s.2)^[k] (pc, v)).1.rank
      ≤ pc.rank - k := by
  induction k generalizing pc v with
  | zero => simp
  | succ k ih =>
    rw [Function.iterate_succ_apply]
    have h1 := ih (joinStep env e master nj n pc v).1 (joinStep env e master nj n pc v).2
    have h2 := joinStep_rank env e master nj n pc v
    simp only [Prod.mk.eta] at h1 ⊢
    omega

/-- Every unit of `join` returns within `joinUnitSteps` steps, whatever the hosts reply. -/
theorem joinStep_returns (env : Hosts) (e : Engine) (master : Node) (nj : String)
    (n : Node) (v : JoinVars) :
    ((fun s : JoinPc × JoinVars => joinStep env e master nj n s.1 s.2)^[joinUnitSteps]
      (.docker, v)).1.isDone = true := by
  have h := joinStep_iterate_rank env e master nj n joinUnitSteps .docker v
  have h0 : ((fun s : JoinPc × JoinVars => joinStep env e master nj n s.1 s.2)^[joinUnitSteps]
      (.docker, v)).1.rank = 0 := by
    simp only [JoinPc.rank, joinUnitSteps] at h ⊢
    omega
  revert h0
  cases ((fun s : JoinPc × JoinVars => joinStep env e master nj n s.1 s.2)^[joinUnitSteps]
      (.docker, v)).1 <;> simp [JoinPc.rank, JoinPc.isDone]

theorem poolStep_solo_other (env : Hosts) (e : Engine) (master : Node) (nj : String)
    (n : Node) (pc : JoinPc) (v : JoinVars) (g : errgroup.Group)
    (fin : List (Node × Option String)) (i : Nat) :
    poolStep env e master nj (i + 1) { units := [(n, pc)], vars := v, group := g, finished := fin }
      = { units := [(n, pc)], vars := v, group := g, finished := fin } := by
  simp [poolStep]

theorem poolStep_solo_shape (env : Hosts) (e : Engine) (master : Node) (nj : String)
    (n : Node) (pc : JoinPc) (v : JoinVars) (g : errgroup.Group)
    (fin : List (Node × Option String)) :
    ∃ pc1 v1 g1 fin1,
      poolStep env e master nj 0 { units := [(n, pc)], vars := v, group := g, finished := fin }
        = { units := [(n, pc1)], vars := v1, group := g1, finished := fin1 } := by
  simp only [poolStep, List.getElem?_cons_zero]
  by_cases hd : pc.isDone = true
  · exact ⟨pc, v, g, fin, by simp [hd]⟩
  · simp only [hd, Bool.false_eq_true, if_false]
    rcases hr : joinStep env e master nj n pc v with ⟨pc1, v1⟩
    cases pc1 <;> simp

theorem runJoinPool_solo (env : Hosts) (e : Engine) (master : Node) (nj : String)
    (n : Node) (picks : List Nat) (pc : JoinPc) (v : JoinVars) (g : errgroup.Group)
    (fin : List (Node × Option String)) :
    runJoinPool env e master nj picks
        { units := [(n, pc)], vars := v, group := g, finished := fin }
      = (poolStep env e master nj 0)^[picks.count 0]
          { units := [(n, pc)], vars := v, group := g, finished := fin } := by
  induction picks generalizing pc v g fin with
  | nil => rfl
  | cons i rest ih =>
    simp only [runJoinPool]
    cases i with
    | zero =>
      obtain ⟨pc1, v1, g1, fin1, h⟩ := poolStep_solo_shape env e master nj n pc v g fin
      rw [h, ih, List.count_cons_self, Function.iterate_succ_apply, h]
    | succ i =>
      rw [poolStep_solo_other, ih]
      simp

theorem completion_one : completion 1 = List.replicate joinUnitSteps 0 := by
  decide

theorem poolStep_done (env : Hosts) (e : Engine) (master : Node) (nj : String)
    (n : Node) (x : Option String) (v : JoinVars) (g : errgroup.Group)
    (fin : List (Node × Option String)) (k : Nat) :
    (poolStep env e master nj 0)^[k]
        { units := [(n, .done x)], vars := v, group := g, finished := fin }
      = { units := [(n, .done x)], vars := v, group := g, finished := fin } := by
  apply Function.iterate_fixed
  simp [poolStep, JoinPc.isDone]

theorem solo_first_ok (env : Hosts) (e : Engine) (master n : Node) (mj nj : String)
    (L : CallLog) (hctl : n.IsControl = true)
    (h1 : ∃ out, env L n (.Install "docker/images" []) = .ok out)
    (h2 : ∃ out, env (L ++ [(n, .Install "docker/images" [])]) n
      (.Install "istio/images" []) = .ok out)
    (h3 : ∃ out, env (L ++ [(n, .Install "docker/images" []),
      (n, .Install "istio/images" [])]) n (.Install "app/images" []) = .ok out)
    (h4 : ∃ out, env (L ++ preloads n) n (.Run "" [mj]) = .ok out) :
    (poolStep env e master nj 0)^[joinUnitSteps]
        { units := [(n, .docker)], vars := { mj := mj, err := none, log := L },
          group := errgroup.Group.zero, finished := [] }
      = { units := [(n, .done none)],
          vars := { mj := mj, err := none, log := L ++ preloads n ++ [(n, .Run "" [mj])] },
          group := errgroup.Group.zero, finished := [(n, none)] } := by
  obtain ⟨o1, h1⟩ := h1
  obtain ⟨o2, h2⟩ := h2
  obtain ⟨o3, h3⟩ := h3
  obtain ⟨o4, h4⟩ := h4
  simp only [preloads, List.append_assoc, List.cons_append, List.nil_append] at h2 h3 h4
  simp [joinUnitSteps, Function.iterate_succ_apply, poolStep, joinStep, Hosts.call,
    JoinPc.isDone, h1, h2, h3, h4, hctl, preloads, errOf, errgroup.Group.collect]

theorem solo_retry (env : Hosts) (e : Engine) (master n : Node) (mj nj : String)
    (L : CallLog) (hctl : n.IsControl = true)
    (h1 : ∃ out, env L n (.Install "docker/images" []) = .ok out)
    (h2 : ∃ out, env (L ++ [(n, .Install "docker/images" [])]) n
      (.Install "istio/images" []) = .ok out)
    (h3 : ∃ out, env (L ++ [(n, .Install "docker/images" []),
      (n, .Install "istio/images" [])]) n (.Install "app/images" []) = .ok out)
    (err1 mj1 : String)
    (h4 : env (L ++ preloads n) n (.Run "" [mj]) = .error err1)
    (h5 : env (L ++ preloads n ++ [(n, .Run "" [mj]), (master, .Run "" [uploadCertsCmd])])
      master (.Run "" [tokenCertCmd]) = .ok mj1) :
    (poolStep env e master nj 0)^[joinUnitSteps]
        { units := [(n, .docker)], vars := { mj := mj, err := none, log := L },
          group := errgroup.Group.zero, finished := [] }
      = { units := [(n, .done (errOf (env (L ++ preloads n ++ [(n, .Run "" [mj]),
              (master, .Run "" [uploadCertsCmd]), (master, .Run "" [tokenCertCmd])])
              n (retryCall e mj1))))],
          vars := { mj := mj1,
                    err := errOf (env (L ++ preloads n ++ [(n, .Run "" [mj]),
                      (master, .Run "" [uploadCertsCmd]), (master, .Run "" [tokenCertCmd])])
                      n (retryCall e mj1)),
                    log := L ++ preloads n ++ [(n, .Run "" [mj]),
                      (master, .Run "" [uploadCertsCmd]), (master, .Run "" [tokenCertCmd]),
                      (n, retryCall e mj1)] },
          group := errgroup.Group.zero.collect (errOf (env (L ++ preloads n ++
              [(n, .Run "" [mj]), (master, .Run "" [uploadCertsCmd]),
               (master, .Run "" [tokenCertCmd])]) n (retryCall e mj1))),
          finished := [(n, errOf (env (L ++ preloads n ++ [(n, .Run "" [mj]),
              (master, .Run "" [uploadCertsCmd]), (master, .Run "" [tokenCertCmd])])
              n (retryCall e mj1)))] } := by
  obtain ⟨o1, h1⟩ := h1
  obtain ⟨o2, h2⟩ := h2
  obtain ⟨o3, h3⟩ := h3
  simp only [preloads, List.append_assoc, List.cons_append, List.nil_append] at h2 h3 h4 h5
  simp [joinUnitSteps, Function.iterate_succ_apply, poolStep, joinStep, Hosts.call,
    JoinPc.isDone, h1, h2, h3, h4, h5, hctl, preloads, errOf, outOf, retryCall, strings.Join,
    String.append_assoc]

theorem solo_no_token (env : Hosts) (e : Engine) (master n : Node) (mj nj : String)
    (L : CallLog) (hctl : n.IsControl = true)
    (h1 : ∃ out, env L n (.Install "docker/images" []) = .ok out)
    (h2 : ∃ out, env (L ++ [(n, .Install "docker/images" [])]) n
      (.Install "istio/images" []) = .ok out)
    (h3 : ∃ out, env (L ++ [(n, .Install "docker/images" []),
      (n, .Install "istio/images" [])]) n (.Install "app/images" []) = .ok out)
    (err1 err2 : String)
    (h4 : env (L ++ preloads n) n (.Run "" [mj]) = .error err1)
    (h5 : env (L ++ preloads n ++ [(n, .Run "" [mj]), (master, .Run "" [uploadCertsCmd])])
      master (.Run "" [tokenCertCmd]) = .error err2) :
    (poolStep env e master nj 0)^[joinUnitSteps]
        { units := [(n, .docker)], vars := { mj := mj, err := none, log := L },
          group := errgroup.Group.zero, finished := [] }
      = { units := [(n, .done (some err2))],
          vars := { mj := "", err := some err2,
                    log := L ++ preloads n ++ [(n, .Run "" [mj]),
                      (master, .Run "" [uploadCertsCmd]), (master, .Run "" [tokenCertCmd])] },
          group := { err := some err2 }, finished := [(n, some err2)] } := by
  obtain ⟨o1, h1⟩ := h1
  obtain ⟨o2, h2⟩ := h2
  obtain ⟨o3, h3⟩ := h3
  simp only [preloads, List.append_assoc, List.cons_append, List.nil_append] at h2 h3 h4 h5
  simp [joinUnitSteps, Function.iterate_succ_apply, poolStep, joinStep, Hosts.call,
    JoinPc.isDone, h1, h2, h3, h4, h5, hctl, preloads, errOf, outOf,
    errgroup.Group.collect, errgroup.Group.zero]

theorem collect_zero_Wait (r : Option String) :
    (errgroup.Group.zero.collect r).Wait = r := by
  cases r <;> rfl

/-- The method `join` on a cluster with one new node: the two token commands, then the steps
of the one unit, whatever the scheduler picks. -/
theorem join_solo (env : Hosts) (sched : List Nat) (e : Engine) (master n : Node)
    (mj nj : String) (log : CallLog) (hm : e.master = some master)
    (hone : e.nodes.filter Node.IsNew = [n])
    (ht1 : env log master (.Run "" [tokenCertCmd]) = .ok mj)
    (ht2 : env (log ++ [(master, .Run "" [tokenCertCmd])]) master (.Run "" [tokenCmd])
      = .ok nj) :
    e.join env sched log =
      (retOf ((poolStep env e master nj 0)^[sched.count 0]
          ((poolStep env e master nj 0)^[joinUnitSteps]
            { units := [(n, .docker)],
              vars := { mj := mj, err := none, log := log ++ tokenCalls master },
              group := errgroup.Group.zero, finished := [] })).group.Wait,
        ((poolStep env e master nj 0)^[sched.count 0]
          ((poolStep env e master nj 0)^[joinUnitSteps]
            { units := [(n, .docker)],
              vars := { mj := mj, err := none, log := log ++ tokenCalls master },
              group := errgroup.Group.zero, finished := [] })).finished,
        ((poolStep env e master nj 0)^[sched.count 0]
          ((poolStep env e master nj 0)^[joinUnitSteps]
            { units := [(n, .docker)],
              vars := { mj := mj, err := none, log := log ++ tokenCalls master },
              group := errgroup.Group.zero, finished := [] })).vars.log) := by
  have hl : launched Node.IsNew e.nodes = [n] := by rw [launched_eq_filter, hone]
  have hcount : (sched ++ completion 1).count 0 = sched.count 0 + joinUnitSteps := by
    rw [List.count_append, completion_one, List.count_replicate_self]
  simp only [Engine.join, hm, Hosts.call, ht1, ht2, hl, List.map_cons, List.map_nil,
    List.length_singleton]
  rw [runJoinPool_solo, hcount, Function.iterate_add_apply]
  simp only [tokenCalls, List.append_assoc, List.cons_append, List.nil_append]
  cases hw : ((poolStep env e master nj 0)^[sched.count 0]
      ((poolStep env e master nj 0)^[joinUnitSteps]
        { units := [(n, .docker)],
          vars := { mj := mj, err := none,
                    log := log ++ [(master, .Run "" [tokenCertCmd]),
                      (master, .Run "" [tokenCmd])] },
          group := errgroup.Group.zero, finished := [] })).group.Wait <;> simp [retOf]

set_option maxRecDepth 100000 in
/-- C12 (as stated) fails, in two ways. By design: with one new controlplane node whose
first join fails, when the master's command for a fresh token fails too, `join` returns the
error of that command and the node has joined once only. By a slip: with a second new node,
the goroutines share `err`; when the worker's successful join stores `nil` between the
store and the test of the controlplane node's failed join, that node is not joined again,
the master uploads no certificates and issues no fresh token, and `join` returns `nil`. -/
theorem C12_counterexample :
    ((Engine.join noTokenHosts [] oneNewNode []).1 = .err "token: exit status 1" ∧
      callsOn joinNode (Engine.join noTokenHosts [] oneNewNode []).2.2
        = [.Install "docker/images" [], .Install "istio/images" [],
           .Install "app/images" [], .Run "" ["kubeadm join old"]]) ∧
    ((Engine.join staleTokenHosts (List.replicate 7 0 ++ List.replicate 6 1)
        twoNewNodes []).1 = .nil ∧
      callsOn joinNode (Engine.join staleTokenHosts
          (List.replicate 7 0 ++ List.replicate 6 1) twoNewNodes []).2.2
        = [.Install "docker/images" [], .Install "istio/images" [],
           .Install "app/images" [], .Run "" ["kubeadm join old"]] ∧
      callsOn joinMaster (Engine.join staleTokenHosts
          (List.replicate 7 0 ++ List.replicate 6 1) twoNewNodes []).2.2
        = [.Run "" [tokenCertCmd], .Run "" [tokenCmd]]) := by
  decide

/-- C12 (amended): in `join` on a cluster where the node `n` is the only node flagged new
(no other goroutine assigns `err` and `mj`), `n` being a controlplane node whose three
image preloads succeed, for every order of the scheduler's picks: when the first join
succeeds, `join` returns `nil` and makes no further call; when it fails and the master's
command for a fresh token succeeds, `join` makes exactly one upload of the certificates
and one token command on the master and one more join on the node, with the fresh token,
and returns what that join returned, without a third attempt; when the token command
fails, `join` returns its error and the node does not join again. -/
theorem C12_join_retry (env : Hosts) (sched : List Nat) (e : Engine) (master n : Node)
    (mj nj : String) (log : CallLog) (hm : e.master = some master)
    (hone : e.nodes.filter Node.IsNew = [n]) (hctl : n.IsControl = true)
    (ht1 : env log master (.Run "" [tokenCertCmd]) = .ok mj)
    (ht2 : env (log ++ [(master, .Run "" [tokenCertCmd])]) master (.Run "" [tokenCmd])
      = .ok nj)
    (h1 : ∃ out, env (log ++ tokenCalls master) n (.Install "docker/images" []) = .ok out)
    (h2 : ∃ out, env (log ++ tokenCalls master ++ [(n, .Install "docker/images" [])]) n
      (.Install "istio/images" []) = .ok out)
    (h3 : ∃ out, env (log ++ tokenCalls master ++ [(n, .Install "docker/images" []),
      (n, .Install "istio/images" [])]) n (.Install "app/images" []) = .ok out) :
    ((∃ out, env (log ++ tokenCalls master ++ preloads n) n (.Run "" [mj]) = .ok out) →
      e.join env sched log
        = (.nil, [(n, none)],
            log ++ tokenCalls master ++ preloads n ++ [(n, .Run "" [mj])])) ∧
    (∀ err1 mj1,
      env (log ++ tokenCalls master ++ preloads n) n (.Run "" [mj]) = .error err1 →
      env (log ++ tokenCalls master ++ preloads n ++
          [(n, .Run "" [mj]), (master, .Run "" [uploadCertsCmd])])
        master (.Run "" [tokenCertCmd]) = .ok mj1 →
      e.join env sched log
        = (retOf (errOf (env (log ++ tokenCalls master ++ preloads n ++ [(n, .Run "" [mj]),
              (master, .Run "" [uploadCertsCmd]), (master, .Run "" [tokenCertCmd])])
              n (retryCall e mj1))),
           [(n, errOf (env (log ++ tokenCalls master ++ preloads n ++ [(n, .Run "" [mj]),
              (master, .Run "" [uploadCertsCmd]), (master, .Run "" [tokenCertCmd])])
              n (retryCall e mj1)))],
           log ++ tokenCalls master ++ preloads n ++ [(n, .Run "" [mj]),
             (master, .Run "" [uploadCertsCmd]), (master, .Run "" [tokenCertCmd]),
             (n, retryCall e mj1)])) ∧
    (∀ err1 err2,
      env (log ++ tokenCalls master ++ preloads n) n (.Run "" [mj]) = .error err1 →
      env (log ++ tokenCalls master ++ preloads n ++
          [(n, .Run "" [mj]), (master, .Run "" [uploadCertsCmd])])
        master (.Run "" [tokenCertCmd]) = .error err2 →
      e.join env sched log
        = (.err err2, [(n, some err2)],
           log ++ tokenCalls master ++ preloads n ++ [(n, .Run "" [mj]),
             (master, .Run "" [uploadCertsCmd]), (master, .Run "" [tokenCertCmd])])) := by
  have hj := join_solo env sched e master n mj nj log hm hone ht1 ht2
  refine ⟨?_, ?_, ?_⟩
  · intro h4
    rw [hj, solo_first_ok env e master n mj nj _ hctl h1 h2 h3 h4, poolStep_done]
    rfl
  · intro err1 mj1 h4 h5
    rw [hj, solo_retry env e master n mj nj _ hctl h1 h2 h3 err1 mj1 h4 h5, poolStep_done]
    simp only [collect_zero_Wait]
  · intro err1 err2 h4 h5
    rw [hj, solo_no_token env e master n mj nj _ hctl h1 h2 h3 err1 err2 h4 h5, poolStep_done]
    rfl

/-- C12 (amended), at a concrete run: one new controlplane node, the first join fails on a
stale token, the retry with the fresh token succeeds; the scheduler's picks do not matter. -/
theorem C12_join_retry_witness :
    Engine.join staleTokenHosts [0, 3, 0, 1] oneNewNode []
      = (.nil, [(joinNode, none)],
          tokenCalls joinMaster ++ preloads joinNode ++
            [(joinNode, .Run "" ["kubeadm join old"]),
             (joinMaster, .Run "" [uploadCertsCmd]),
             (joinMaster, .Run "" [tokenCertCmd]),
             (joinNode, .Run "" ["sudo kubeadm join new "])]) :=
  (C12_join_retry staleTokenHosts [0, 3, 0, 1] oneNewNode joinMaster joinNode
    "kubeadm join old" "" [] (by decide) (by decide) rfl rfl rfl ⟨"", rfl⟩ ⟨"", rfl⟩
    ⟨"", rfl⟩).2.1 "join: exit status 1" "kubeadm join new\n" rfl rfl

/-! ## Steps with children and selectors outside the pipeline -/

theorem children_spec {σ : Type} (act : Exec σ) (e : Engine) (cs : List Step) (c1 : Step)
    (n : List Int) (len i : Nat) (m : Machine σ) :
    Step.children act e (c1 :: cs) n len i m =
      if (runInOrder act e n cs m).1 = .nil then
        (.panic (indexPanic ((i + cs.length + 1 : Nat) : Int) len),
          (runInOrder act e n cs m).2)
      else runInOrder act e n cs m := by
  induction cs generalizing c1 i m with
  | nil => simp [Step.children, runInOrder]
  | cons c rest ih =>
    simp only [Step.children, runInOrder]
    rcases hr : c.install act e n m with ⟨r, m1⟩
    cases r with
    | nil =>
      simp only [ih c (i + 1) m1, List.length_cons]
      rw [show i + 1 + rest.length + 1 = i + (rest.length + 1) + 1 by omega]
    | err msg => simp
    | panic msg => simp

theorem install_eq {σ : Type} (act : Exec σ) (e : Engine) (num : Int) (name : String)
    (steps : List Step) (run : Option Action) (n : List Int) (m : Machine σ) :
    Step.install act e (.mk num name steps run) n m =
      if (stepResult act e (.mk num name [] run) m.world).1 = .nil then
        Step.children act e steps (n ++ [num]) steps.length 0 (afterOwn act e num name run n m)
      else ((stepResult act e (.mk num name [] run) m.world).1,
            afterOwn act e num name run n m) := by
  cases run with
  | none => simp [Step.install, stepResult, Step.run, afterOwn]
  | some a =>
    simp only [Step.install, stepResult, Step.run, afterOwn]
    rcases hact : act a e m.world with ⟨r, w2⟩
    cases r <;> simp [List.append_assoc]

/-- C14: a step without children emits its one notification, runs its action (when it has
one) once and returns the result of the action. A step with the children `c1 :: cs` whose
own action succeeds never returns `nil`; what it does is the same whatever its first child
`c1` is; it runs the children `cs` (the second to the last) in order up to the first that
does not return `nil` and returns what that child returned, and when all of them return
`nil` it panics on the index `len(s.Steps)`, one past the end. No step of `DeploySteps` or
`UpdateSteps` has children. -/
theorem C14_step_install {σ : Type} (act : Exec σ) (e : Engine) (num : Int) (name : String)
    (run : Option Action) (n : List Int) (m : Machine σ) :
    Step.install act e (.mk num name [] run) n m =
      ((stepResult act e (.mk num name [] run) m.world).1,
        { world := (stepResult act e (.mk num name [] run) m.world).2,
          trace := m.trace ++ announce e n num name ::
            (match run with
             | some a => [Event.run a]
             | none => []) }) ∧
    (∀ (c1 : Step) (cs : List Step),
      (stepResult act e (.mk num name [] run) m.world).1 = .nil →
      (Step.install act e (.mk num name (c1 :: cs) run) n m).1 ≠ .nil ∧
      (∀ c0 : Step, Step.install act e (.mk num name (c0 :: cs) run) n m =
        Step.install act e (.mk num name (c1 :: cs) run) n m) ∧
      ((runInOrder act e (n ++ [num]) cs (afterOwn act e num name run n m)).1 = .nil →
        Step.install act e (.mk num name (c1 :: cs) run) n m =
          (.panic (indexPanic ((cs.length + 1 : Nat) : Int) (cs.length + 1)),
            (runInOrder act e (n ++ [num]) cs (afterOwn act e num name run n m)).2)) ∧
      ((runInOrder act e (n ++ [num]) cs (afterOwn act e num name run n m)).1 ≠ .nil →
        Step.install act e (.mk num name (c1 :: cs) run) n m =
          runInOrder act e (n ++ [num]) cs (afterOwn act e num name run n m))) ∧
    (∀ s ∈ DeploySteps, s.Steps = []) ∧ (∀ s ∈ UpdateSteps, s.Steps = []) := by
  refine ⟨?_, ?_, DeploySteps_childless, UpdateSteps_childless⟩
  · rw [install_eq]
    by_cases h : (stepResult act e (.mk num name [] run) m.world).1 = .nil
    · simp [h, Step.children, afterOwn]
    · simp [h, afterOwn]
  · intro c1 cs hown
    have key : ∀ c0 : Step, Step.install act e (.mk num name (c0 :: cs) run) n m =
        if (runInOrder act e (n ++ [num]) cs (afterOwn act e num name run n m)).1 = .nil then
          (.panic (indexPanic ((cs.length + 1 : Nat) : Int) (cs.length + 1)),
            (runInOrder act e (n ++ [num]) cs (afterOwn act e num name run n m)).2)
        else runInOrder act e (n ++ [num]) cs (afterOwn act e num name run n m) := by
      intro c0
      rw [install_eq, if_pos hown, children_spec]
      simp
    refine ⟨?_, ?_, ?_, ?_⟩
    · rw [key c1]
      by_cases h : (runInOrder act e (n ++ [num]) cs (afterOwn act e num name run n m)).1 = .nil
      · rw [if_pos h]; exact Ret.noConfusion
      · rw [if_neg h]; exact h
    · intro c0
      rw [key c0, key c1]
    · intro h
      rw [key c1, if_pos h]
    · intro h
      rw [key c1, if_neg h]

/-- C14, at a concrete step with two children: the first child is passed over, the second
runs, then the index 2 of a list of length 2 panics. -/
theorem C14_step_install_witness :
    Step.install countingExec Engine.New nestedStep [] { world := 0, trace := [] }
      = (.panic "runtime error: index out of range [2] with length 2",
          { world := 2,
            trace := [.print "1) outer\n", .run .checkNew, .print "1.2) second\n",
                      .run .init] }) :=
  ((C14_step_install countingExec Engine.New 1 "outer" (some .checkNew) []
      { world := 0, trace := [] }).2.1
    (.mk 1 "first" [] (some .connect)) [.mk 2 "second" [] (some .init)] rfl).2.2.1 rfl

theorem range_guard (n k : Int)
    (h : (if -(2 : Int) ^ 63 ≤ n ∧ n < (2 : Int) ^ 63 then some n else none) = some k) :
    -(2 : Int) ^ 63 ≤ k ∧ k < (2 : Int) ^ 63 := by
  by_cases hr : -(2 : Int) ^ 63 ≤ n ∧ n < (2 : Int) ^ 63
  · rw [if_pos hr] at h
    injection h with h
    rw [← h]
    exact hr
  · rw [if_neg hr] at h
    exact Option.noConfusion h

theorem Atoi_range (s : String) (k : Int) (h : strconv.Atoi s = some k) :
    -(2 : Int) ^ 63 ≤ k ∧ k < (2 : Int) ^ 63 := by
  unfold strconv.Atoi at h
  cases hd : s.data with
  | nil => rw [hd] at h; exact Option.noConfusion h
  | cons c cs =>
    rw [hd] at h
    simp only at h
    cases hds : (if c = '-' ∨ c = '+' then cs else c :: cs) with
    | nil => rw [hds] at h; exact Option.noConfusion h
    | cons d ds =>
      rw [hds] at h
      simp only at h
      cases hv : strconv.digits (d :: ds) 0 with
      | none => rw [hv] at h; exact Option.noConfusion h
      | some v =>
        rw [hv] at h
        exact range_guard (if c = '-' then -(v : Int) else (v : Int)) k h

theorem wrapInt64_of_range (x : Int) (h1 : -(2 : Int) ^ 63 ≤ x) (h2 : x < (2 : Int) ^ 63) :
    wrapInt64 x = x := by
  unfold wrapInt64
  norm_num at h1 h2 ⊢
  omega

theorem wrapInt64_min : wrapInt64 (-(2 : Int) ^ 63 - 1) = (2 : Int) ^ 63 - 1 := by
  unfold wrapInt64
  norm_num

theorem index_outside (p : List Step) (hlen : (p.length : Int) < 2 ^ 62) (k : Int)
    (h1 : -(2 : Int) ^ 63 ≤ k) (h2 : k < (2 : Int) ^ 63)
    (hout : ¬ (1 ≤ k ∧ k ≤ (p.length : Int))) :
    wrapInt64 (k - 1) < 0 ∨ p[(wrapInt64 (k - 1)).toNat]? = none := by
  by_cases hk : k = -(2 : Int) ^ 63
  · right
    rw [hk, wrapInt64_min, List.getElem?_eq_none_iff]
    norm_num at hlen ⊢
    omega
  · have hw : wrapInt64 (k - 1) = k - 1 := by
      apply wrapInt64_of_range
      · norm_num at h1 hk ⊢; omega
      · norm_num at h2 ⊢; omega
    rw [hw]
    by_cases hpos : 1 ≤ k
    · right
      rw [List.getElem?_eq_none_iff]
      have : ¬ k ≤ (p.length : Int) := fun h => hout ⟨hpos, h⟩
      omega
    · left
      omega

/-- The run of the selector loop, told by the numbers it gets to. -/
theorem selectedLoop_reached {σ : Type} (act : Exec σ) (e : Engine) (p : List Step)
    (hin : ∀ k : Int, 1 ≤ k → k ≤ (p.length : Int) → ∃ s, Selects p k s)
    (hout : ∀ k : Int, ¬ (1 ≤ k ∧ k ≤ (p.length : Int)) → stepByNum p k = none)
    (hlen : (p.length : Int) < 2 ^ 62)
    (li : List String) (w : σ) (t : List Event) :
    ((∀ k ∈ reached act e p (li.filterMap strconv.Atoi) w, 1 ≤ k ∧ k ≤ (p.length : Int)) →
      (selectedLoop act e p li { world := w, trace := t }).1 = .nil ∨
      ∃ s ∈ p, ∃ w1, (stepResult act e s w1).1 ≠ .nil ∧
        (selectedLoop act e p li { world := w, trace := t }).1 = (stepResult act e s w1).1) ∧
    (∀ k ∈ reached act e p (li.filterMap strconv.Atoi) w, ¬ (1 ≤ k ∧ k ≤ (p.length : Int)) →
      selectedLoop act e p li { world := w, trace := t } =
        (.panic (indexPanic (wrapInt64 (k - 1)) p.length),
          { world := worldAfter act e
              ((reached act e p (li.filterMap strconv.Atoi) w).dropLast.filterMap
                (stepByNum p)) w,
            trace := t ++
              ((reached act e p (li.filterMap strconv.Atoi) w).dropLast.filterMap
                (stepByNum p)).flatMap (stepEvents e) })) := by
  induction li generalizing w t with
  | nil => simp [selectedLoop, reached]
  | cons i rest ih =>
    cases hi : strconv.Atoi i with
    | none =>
      simp only [selectedLoop, hi, List.filterMap_cons]
      exact ih w t
    | some k =>
      obtain ⟨hr1, hr2⟩ := Atoi_range i k hi
      simp only [List.filterMap_cons, hi]
      by_cases hk : 1 ≤ k ∧ k ≤ (p.length : Int)
      · obtain ⟨s, h0, hidx, hby, hch, hnum⟩ := hin k hk.1 hk.2
        have hlt : ¬ wrapInt64 (k - 1) < 0 := by omega
        have hmem : s ∈ p := List.getElem?_mem hidx
        by_cases hok : (stepResult act e s w).1 = .nil
        · have hreach : reached act e p (k :: rest.filterMap strconv.Atoi) w =
              k :: reached act e p (rest.filterMap strconv.Atoi) (stepResult act e s w).2 := by
            simp [reached, hby, hok]
          have hloop : selectedLoop act e p (i :: rest) { world := w, trace := t } =
              selectedLoop act e p rest
                { world := (stepResult act e s w).2, trace := t ++ stepEvents e s } := by
            simp only [selectedLoop, hi, hlt, if_false, hidx, install_childless act e s hch, hok]
          rw [hreach, hloop]
          obtain ⟨ihA, ihB⟩ := ih (stepResult act e s w).2 (t ++ stepEvents e s)
          constructor
          · intro hall
            exact ihA (fun k1 hk1 => hall k1 (List.mem_cons_of_mem _ hk1))
          · intro k1 hk1 hk1out
            rcases List.mem_cons.mp hk1 with h1 | h1
            · exact absurd (h1 ▸ hk) hk1out
            · rw [ihB k1 h1 hk1out]
              have hne : reached act e p (rest.filterMap strconv.Atoi)
                  (stepResult act e s w).2 ≠ [] := List.ne_nil_of_mem h1
              rw [List.dropLast_cons_of_ne_nil hne]
              simp [List.filterMap_cons, hby, worldAfter, List.flatMap_cons, List.append_assoc]
        · have hreach : reached act e p (k :: rest.filterMap strconv.Atoi) w = [k] := by
            simp [reached, hby, hok]
          have hloop : (selectedLoop act e p (i :: rest) { world := w, trace := t }).1 =
              (stepResult act e s w).1 := by
            cases hres : (stepResult act e s w).1 with
            | nil => exact absurd hres hok
            | err msg =>
              simp only [selectedLoop, hi, hlt, if_false, hidx, install_childless act e s hch,
                hres]
            | panic msg =>
              simp only [selectedLoop, hi, hlt, if_false, hidx, install_childless act e s hch,
                hres]
          rw [hreach]
          constructor
          · intro _
            exact Or.inr ⟨s, hmem, w, hok, hloop⟩
          · intro k1 hk1 hk1out
            simp only [List.mem_singleton] at hk1
            exact absurd (hk1 ▸ hk) hk1out
      · have hreach : reached act e p (k :: rest.filterMap strconv.Atoi) w = [k] := by
          simp [reached, hout k hk]
        have hloop : selectedLoop act e p (i :: rest) { world := w, trace := t } =
            (.panic (indexPanic (wrapInt64 (k - 1)) p.length), { world := w, trace := t }) := by
          simp only [selectedLoop, hi]
          rcases index_outside p hlen k hr1 hr2 hk with h | h
          · simp [h]
          · by_cases hneg : wrapInt64 (k - 1) < 0
            · simp [hneg]
            · simp [hneg, h]
        rw [hreach]
        constructor
        · intro hall
          exact absurd (hall k (by simp)) hk
        · intro k1 hk1 _
          simp only [List.mem_singleton] at hk1
          subst hk1
          rw [hloop]
          simp [worldAfter]

theorem DeploySteps_outside (k : Int) (h : ¬ (1 ≤ k ∧ k ≤ ((DeploySteps.length : Nat) : Int))) :
    stepByNum DeploySteps k = none := by
  have hl : ((DeploySteps.length : Nat) : Int) = 14 := rfl
  rw [hl] at h
  simp only [stepByNum, DeploySteps, List.find?_eq_none, List.mem_cons, List.mem_singleton,
    List.not_mem_nil, or_false]
  intro s hs
  rcases hs with h1 | h1 | h1 | h1 | h1 | h1 | h1 | h1 | h1 | h1 | h1 | h1 | h1 | h1 <;>
    subst h1 <;> simp [Step.Num] <;> omega

theorem UpdateSteps_outside (k : Int) (h : ¬ (1 ≤ k ∧ k ≤ ((UpdateSteps.length : Nat) : Int))) :
    stepByNum UpdateSteps k = none := by
  have hl : ((UpdateSteps.length : Nat) : Int) = 9 := rfl
  rw [hl] at h
  simp only [stepByNum, UpdateSteps, List.find?_eq_none, List.mem_cons, List.mem_singleton,
    List.not_mem_nil, or_false]
  intro s hs
  rcases hs with h1 | h1 | h1 | h1 | h1 | h1 | h1 | h1 | h1 <;>
    subst h1 <;> simp [Step.Num] <;> omega

theorem allLoop_result {σ : Type} (act : Exec σ) (e : Engine) (p : List Step)
    (hch : ∀ s ∈ p, s.Steps = []) (m : Machine σ) :
    (allLoop act e p m).1 = .nil ∨
      ∃ s ∈ p, ∃ w1, (stepResult act e s w1).1 ≠ .nil ∧
        (allLoop act e p m).1 = (stepResult act e s w1).1 := by
  induction p generalizing m with
  | nil => exact Or.inl rfl
  | cons x rest ih =>
    by_cases hok : (stepResult act e x m.world).1 = .nil
    · have : allLoop act e (x :: rest) m = allLoop act e rest
          { world := (stepResult act e x m.world).2, trace := m.trace ++ stepEvents e x } := by
        simp only [allLoop, install_childless act e x (hch x (by simp)), hok]
      rw [this]
      rcases ih (fun s hs => hch s (List.mem_cons_of_mem _ hs)) _ with h | ⟨s, hs, w1, h1, h2⟩
      · exact Or.inl h
      · exact Or.inr ⟨s, List.mem_cons_of_mem _ hs, w1, h1, h2⟩
    · right
      refine ⟨x, by simp, m.world, hok, ?_⟩
      cases hres : (stepResult act e x m.world).1 with
      | nil => exact absurd hres hok
      | err msg => simp only [allLoop, install_childless act e x (hch x (by simp)), hres]
      | panic msg => simp only [allLoop, install_childless act e x (hch x (by simp)), hres]

/-- The selector run of a pipeline, told by the numbers it gets to. -/
theorem runPipeline_bounds {σ : Type} (act : Exec σ) (e : Engine) (p : List Step)
    (hin : ∀ k : Int, 1 ≤ k → k ≤ (p.length : Int) → ∃ s, Selects p k s)
    (hout : ∀ k : Int, ¬ (1 ≤ k ∧ k ≤ (p.length : Int)) → stepByNum p k = none)
    (hlen : (p.length : Int) < 2 ^ 62)
    (steps : String) (w : σ) (t : List Event) (hc : e.check = none) (hne : steps ≠ "") :
    ((∀ k ∈ reached act e p (selection steps) w, 1 ≤ k ∧ k ≤ (p.length : Int)) →
      (runPipeline act e p steps { world := w, trace := t }).1 = .nil ∨
      ∃ s ∈ p, ∃ w1, (stepResult act e s w1).1 ≠ .nil ∧
        (runPipeline act e p steps { world := w, trace := t }).1
          = (stepResult act e s w1).1) ∧
    (∀ k ∈ reached act e p (selection steps) w, ¬ (1 ≤ k ∧ k ≤ (p.length : Int)) →
      runPipeline act e p steps { world := w, trace := t } =
        (.panic (indexPanic (wrapInt64 (k - 1)) p.length),
          { world := worldAfter act e
              ((reached act e p (selection steps) w).dropLast.filterMap (stepByNum p)) w,
            trace := t ++
              ((reached act e p (selection steps) w).dropLast.filterMap
                (stepByNum p)).flatMap (stepEvents e) })) ∧
    ((∀ a w1 msg, (act a e w1).1 ≠ .panic msg) →
      ((∃ msg, (runPipeline act e p steps { world := w, trace := t }).1 = .panic msg) ↔
        ∃ k ∈ reached act e p (selection steps) w, ¬ (1 ≤ k ∧ k ≤ (p.length : Int)))) := by
  rw [runPipeline_selected act e p steps _ hne hc]
  obtain ⟨hA, hB⟩ := selectedLoop_reached act e p hin hout hlen
    (if (strings.Split steps ',').head? = some "1" then strings.Split steps ','
      else "1" :: strings.Split steps ',') w t
  have hsel : (if (strings.Split steps ',').head? = some "1" then strings.Split steps ','
      else "1" :: strings.Split steps ',').filterMap strconv.Atoi = selection steps := rfl
  rw [hsel] at hA hB
  refine ⟨hA, hB, ?_⟩
  intro hnp
  constructor
  · rintro ⟨msg, hmsg⟩
    by_contra hcon
    have hall : ∀ k ∈ reached act e p (selection steps) w, 1 ≤ k ∧ k ≤ (p.length : Int) := by
      intro k hk
      by_contra hk2
      exact hcon ⟨k, hk, hk2⟩
    rcases hA hall with h | ⟨s, _, w1, h1, h2⟩
    · rw [h] at hmsg
      exact Ret.noConfusion hmsg
    · rw [h2] at hmsg
      unfold stepResult at hmsg h1
      cases hrun : s.run with
      | none =>
        rw [hrun] at h1
        exact h1 rfl
      | some a =>
        rw [hrun] at hmsg
        exact hnp a w1 msg hmsg
  · rintro ⟨k, hk, hk2⟩
    exact ⟨_, by rw [hB k hk hk2]⟩

/-- C15: for an engine that passes `check`, with `reached` the numbers of the selection the
run gets to (up to the first failing step). While every such number lies in 1..14 (resp.
1..9), `Install` (resp. `Update`) returns `nil` or what a step of the pipeline returned: no
index leaves the pipeline. A reached number outside that range makes the run panic on the
index `k - 1` instead of returning an error, after the steps selected before it have run
(their events are in the trace). When no engine method panics, the run panics iff a reached
number lies outside the range. With the empty selector no index is computed at all. -/
theorem C15_selector_bounds {σ : Type} (act : Exec σ) (e : Engine) (steps : String)
    (w : σ) (t : List Event) (hc : e.check = none) :
    (steps ≠ "" →
      ((∀ k ∈ reached act e DeploySteps (selection steps) w, 1 ≤ k ∧ k ≤ 14) →
        (e.Install act steps { world := w, trace := t }).1 = .nil ∨
        ∃ s ∈ DeploySteps, ∃ w1, (stepResult act e s w1).1 ≠ .nil ∧
          (e.Install act steps { world := w, trace := t }).1 = (stepResult act e s w1).1) ∧
      (∀ k ∈ reached act e DeploySteps (selection steps) w, ¬ (1 ≤ k ∧ k ≤ 14) →
        e.Install act steps { world := w, trace := t } =
          (.panic (indexPanic (wrapInt64 (k - 1)) 14),
            { world := worldAfter act e
                ((reached act e DeploySteps (selection steps) w).dropLast.filterMap
                  (stepByNum DeploySteps)) w,
              trace := t ++
                ((reached act e DeploySteps (selection steps) w).dropLast.filterMap
                  (stepByNum DeploySteps)).flatMap (stepEvents e) })) ∧
      ((∀ a w1 msg, (act a e w1).1 ≠ .panic msg) →
        ((∃ msg, (e.Install act steps { world := w, trace := t }).1 = .panic msg) ↔
          ∃ k ∈ reached act e DeploySteps (selection steps) w, ¬ (1 ≤ k ∧ k ≤ 14)))) ∧
    (steps ≠ "" →
      ((∀ k ∈ reached act e UpdateSteps (selection steps) w, 1 ≤ k ∧ k ≤ 9) →
        (e.Update act steps { world := w, trace := t }).1 = .nil ∨
        ∃ s ∈ UpdateSteps, ∃ w1, (stepResult act e s w1).1 ≠ .nil ∧
          (e.Update act steps { world := w, trace := t }).1 = (stepResult act e s w1).1) ∧
      (∀ k ∈ reached act e UpdateSteps (selection steps) w, ¬ (1 ≤ k ∧ k ≤ 9) →
        e.Update act steps { world := w, trace := t } =
          (.panic (indexPanic (wrapInt64 (k - 1)) 9),
            { world := worldAfter act e
                ((reached act e UpdateSteps (selection steps) w).dropLast.filterMap
                  (stepByNum UpdateSteps)) w,
              trace := t ++
                ((reached act e UpdateSteps (selection steps) w).dropLast.filterMap
                  (stepByNum UpdateSteps)).flatMap (stepEvents e) })) ∧
      ((∀ a w1 msg, (act a e w1).1 ≠ .panic msg) →
        ((∃ msg, (e.Update act steps { world := w, trace := t }).1 = .panic msg) ↔
          ∃ k ∈ reached act e UpdateSteps (selection steps) w, ¬ (1 ≤ k ∧ k ≤ 9)))) ∧
    ((e.Install act "" { world := w, trace := t }).1 = .nil ∨
      ∃ s ∈ DeploySteps, ∃ w1, (stepResult act e s w1).1 ≠ .nil ∧
        (e.Install act "" { world := w, trace := t }).1 = (stepResult act e s w1).1) ∧
    ((e.Update act "" { world := w, trace := t }).1 = .nil ∨
      ∃ s ∈ UpdateSteps, ∃ w1, (stepResult act e s w1).1 ≠ .nil ∧
        (e.Update act "" { world := w, trace := t }).1 = (stepResult act e s w1).1) := by
  refine ⟨?_, ?_, ?_, ?_⟩
  · intro hne
    exact runPipeline_bounds act e DeploySteps
      (fun k h1 h2 => DeploySteps_selects k h1 h2) DeploySteps_outside (by decide)
      steps w t hc hne
  · intro hne
    exact runPipeline_bounds act e UpdateSteps
      (fun k h1 h2 => UpdateSteps_selects k h1 h2) UpdateSteps_outside (by decide)
      steps w t hc hne
  · unfold Engine.Install
    rw [runPipeline_empty act e DeploySteps _ hc]
    exact allLoop_result act e DeploySteps DeploySteps_childless _
  · unfold Engine.Update
    rw [runPipeline_empty act e UpdateSteps _ hc]
    exact allLoop_result act e UpdateSteps UpdateSteps_childless _

set_option maxRecDepth 100000 in
/-- C15, at concrete selectors on a complete single node: "0", "-1" and "15" make `Install`
panic, and "10" makes `Update` panic, after step 1 has run; so does the least `int`, whose
index `n - 1` wraps around to the greatest. -/
theorem C15_selector_bounds_witness :
    (Engine.ofConfig "" "" [Node.ofConfig "10.0.0.1" "m1" true true true]).Install
        countingExec "15" { world := 0, trace := [] }
      = (.panic "runtime error: index out of range [14] with length 14",
          { world := 1, trace := [.print "1) connect\n", .run .connect] }) ∧
    (Engine.ofConfig "" "" [Node.ofConfig "10.0.0.1" "m1" true true true]).Install
        countingExec "0" { world := 0, trace := [] }
      = (.panic "runtime error: index out of range [-1]",
          { world := 1, trace := [.print "1) connect\n", .run .connect] }) ∧
    (Engine.ofConfig "" "" [Node.ofConfig "10.0.0.1" "m1" true true true]).Install
        countingExec "-1" { world := 0, trace := [] }
      = (.panic "runtime error: index out of range [-2]",
          { world := 1, trace := [.print "1) connect\n", .run .connect] }) ∧
    (Engine.ofConfig "" "" [Node.ofConfig "10.0.0.1" "m1" true true true]).Update
        countingExec "10" { world := 0, trace := [] }
      = (.panic "runtime error: index out of range [9] with length 9",
          { world := 1, trace := [.print "1) connect\n", .run .connect] }) ∧
    (Engine.ofConfig "" "" [Node.ofConfig "10.0.0.1" "m1" true true true]).Install
        countingExec "-9223372036854775808" { world := 0, trace := [] }
      = (.panic "runtime error: index out of range [9223372036854775807] with length 14",
          { world := 1, trace := [.print "1) connect\n", .run .connect] }) :=
  have e5 := (C15_selector_bounds countingExec
    (Engine.ofConfig "" "" [Node.ofConfig "10.0.0.1" "m1" true true true])
    "-9223372036854775808" 0 [] (by decide)).1 (by decide)
  have e1 := (C15_selector_bounds countingExec
    (Engine.ofConfig "" "" [Node.ofConfig "10.0.0.1" "m1" true true true]) "15" 0 []
    (by decide)).1 (by decide)
  have e2 := (C15_selector_bounds countingExec
    (Engine.ofConfig "" "" [Node.ofConfig "10.0.0.1" "m1" true true true]) "0" 0 []
    (by decide)).1 (by decide)
  have e3 := (C15_selector_bounds countingExec
    (Engine.ofConfig "" "" [Node.ofConfig "10.0.0.1" "m1" true true true]) "-1" 0 []
    (by decide)).1 (by decide)
  have e4 := (C15_selector_bounds countingExec
    (Engine.ofConfig "" "" [Node.ofConfig "10.0.0.1" "m1" true true true]) "10" 0 []
    (by decide)).2.1 (by decide)
  ⟨e1.2.1 15 (by decide) (by decide), e2.2.1 0 (by decide) (by decide),
   (e3.2.1 (-1) (by decide) (by decide)).trans
     (congrArg₂ Prod.mk (by decide) (congrArg₂ Machine.mk (by decide) (by decide))),
   e4.2.1 10 (by decide) (by decide),
   (e5.2.1 (-9223372036854775808) (by decide) (by decide)).trans
     (congrArg₂ Prod.mk (by decide) (congrArg₂ Machine.mk (by decide) (by decide)))⟩

end K8sTool
